import Mathlib

/-!
Verification of the module-resolution and script-assembly engine of the
AI-lab install-script builder (`src/core/generateScript.ts` together with the
registry `src/registry/modules.ts`).

The engine is embedded shallowly: TypeScript objects become structures,
the `Map` index becomes an association list with last-binding-wins lookup
(mirroring `new Map(...)` overwrite semantics), and the recursive DFS of
`resolveWithDeps` is rendered with an explicit fuel argument.  The fuel
`byId.length + 1` is provably sufficient (the recursion depth of the source
program is bounded by the number of distinct keys, because an id is marked
visited before its dependencies are visited); fuel-irrelevance above this
bound is proved below.
-/

namespace InstallBuilder

/-- The closed OS enumeration (`type OS = "mac" | "ubuntu"`). -/
inductive OS where
  | mac : OS
  | ubuntu : OS
deriving DecidableEq, Repr

/-- The string carried by an `OS` value (used by template interpolation). -/
def osToString : OS → String
  | OS.mac => "mac"
  | OS.ubuntu => "ubuntu"

/-- `ScriptByOS = Partial<Record<OS, string>>`: an optional fragment per OS. -/
structure ScriptByOS where
  mac : Option String
  ubuntu : Option String
deriving DecidableEq, Repr

/-- Indexing a `Partial<Record<OS, string>>` by an OS tag (`mod.script[os]`). -/
def ScriptByOS.get (s : ScriptByOS) : OS → Option String
  | OS.mac => s.mac
  | OS.ubuntu => s.ubuntu

/-- The engine-relevant fields of `ModuleDef`.  The source type also carries
UI metadata (categories, tags, icons, descriptions, inputs, install checks)
that the generator never reads; `requires ?? []` is modelled by storing the
absent case as `[]`. -/
structure ModuleDef where
  id : String
  name : String
  requires : List String
  script : ScriptByOS
deriving DecidableEq, Repr

/-- Lookup in the JS `Map` built by `mapById`: when the same key is inserted
twice the later insertion wins, hence the recursion prefers the result found
in the tail of the association list. -/
def mapGet : List (String × ModuleDef) → String → Option ModuleDef
  | [], _ => none
  | (k, v) :: rest, id =>
    match mapGet rest id with
    | some r => some r
    | none => if k = id then some v else none

/-- `mapById`: `new Map(MODULES.map((m) => [m.id, m]))`. -/
def mapById (mods : List ModuleDef) : List (String × ModuleDef) :=
  mods.map (fun m => (m.id, m))

/-- The mutable state of the DFS in `resolveWithDeps`: the `visited` set
(modelled as a list queried by membership) and the `out` output sequence. -/
structure DfsState where
  visited : List String
  out : List String
deriving DecidableEq, Repr

/-- The body of the recursive closure `dfs` of `resolveWithDeps`, with the
recursive occurrence abstracted as `dfsRec`:

```
const dfs = (id) => {
  if (visited.has(id)) return;
  visited.add(id);
  const mod = byId.get(id);
  if (!mod) return;
  for (const dep of mod.requires ?? []) dfs(dep);
  out.push(id);
};
```
-/
def dfsStep (byId : List (String × ModuleDef))
    (dfsRec : String → DfsState → DfsState) (id : String) (st : DfsState) :
    DfsState :=
  if id ∈ st.visited then st
  else
    let st1 : DfsState := ⟨id :: st.visited, st.out⟩
    match mapGet byId id with
    | none => st1
    | some mod =>
      let st2 := mod.requires.foldl (fun s d => dfsRec d s) st1
      ⟨st2.visited, st2.out ++ [id]⟩

/-- The `dfs` closure itself, with explicit fuel: each nesting level of the
source recursion consumes one unit.  The source recursion is unbounded, but
its depth is bounded by the number of distinct keys of the index plus one
(an id is marked visited before its dependencies are visited, and only ids
that are keys recurse), so any fuel of at least `byId.length + 1` computes
the source's answer; fuel-irrelevance above the bound is proved below. -/
def dfs (byId : List (String × ModuleDef)) : Nat → String → DfsState → DfsState
  | 0, _, st => st
  | fuel + 1, id, st => dfsStep byId (dfs byId fuel) id st

/-- Sequencing of `dfs` over a list of ids at one recursion depth
(`for (const dep of ...) dfs(dep)` and the top-level
`for (const id of ids) dfs(id)` loop). -/
def dfsList (byId : List (String × ModuleDef)) (fuel : Nat) (l : List String)
    (st : DfsState) : DfsState :=
  l.foldl (fun s d => dfs byId fuel d s) st

/-- `resolveWithDeps` at a given fuel (the source recursion is unbounded;
any fuel of at least `byId.length + 1` computes the source's answer, see
`dfs_fuel_irrelevant` below). -/
def resolveWithDepsFuel (fuel : Nat) (ids : List String)
    (byId : List (String × ModuleDef)) : List String :=
  (dfsList byId fuel ids ⟨[], []⟩).out

/-- `resolveWithDeps(ids, byId)`: selected modules plus their transitive hard
dependencies, dependency-first. -/
def resolveWithDeps (ids : List String) (byId : List (String × ModuleDef)) :
    List String :=
  resolveWithDepsFuel (byId.length + 1) ids byId

/-- `uniqueKeepOrder`: one pass over `ids` with a seen-set `s` and an output
`r`; the first occurrence of every id is kept, later duplicates dropped. -/
def uniqueKeepOrder (ids : List String) : List String :=
  (ids.foldl
    (fun (acc : List String × List String) x =>
      if x ∈ acc.1 then acc else (x :: acc.1, acc.2 ++ [x]))
    ([], [])).2

/-- One global character replacement `c → backslash-c` (each of the four
`.replace(/…/g, …)` passes of `escapeForDoubleQuotes` has this shape). -/
def escPass (c : Char) (cs : List Char) : List Char :=
  cs.flatMap (fun x => if x = c then ['\\', x] else [x])

/-- The backtick character (code point 96). -/
def btick : Char := Char.ofNat 96

/-- The opening-brace character (code point 123). -/
def lbrace : Char := Char.ofNat 123

/-- The closing-brace character (code point 125). -/
def rbrace : Char := Char.ofNat 125

/-- `escapeForDoubleQuotes`: backslash, double-quote, dollar and backtick are
escaped, in that order (backslash first, so that the backslashes introduced
by the later passes are not themselves doubled). -/
def escapeForDoubleQuotes (v : String) : String :=
  String.mk (escPass btick (escPass '$' (escPass '"' (escPass '\\' v.data))))

/-- The variable map `vars: Record<string, string>` is modelled as an
association list with unique-key lookup; `vars[key] ?? ""` yields `""` for a
missing key. -/
def varGet : List (String × String) → String → String
  | [], _ => ""
  | (k, v) :: rest, key => if k = key then v else varGet rest key

/-- The character class `[a-zA-Z0-9_]` of the placeholder regex. -/
def isIdChar (c : Char) : Bool :=
  ('a' ≤ c && c ≤ 'z') || ('A' ≤ c && c ≤ 'Z') || ('0' ≤ c && c ≤ '9') || c = '_'

/-- The global regex replace
`script.replace(/\x7b\x7b([a-zA-Z0-9_]+)\x7d\x7d/g, cb)` as a left-to-right
scanner: at each position, a match needs two opening braces, a nonempty
maximal run of identifier characters, then two closing braces; on a match
the escaped variable value is emitted and scanning resumes after the match;
otherwise one character is emitted and scanning advances by one. -/
def applyVarsAux (vars : List (String × String)) :
    Nat → List Char → List Char
  | 0, cs => cs
  | _ + 1, [] => []
  | _ + 1, [c] => [c]
  | fuel + 1, c :: c2 :: rest2 =>
    if c = lbrace ∧ c2 = lbrace then
      match rest2.span isIdChar with
      | (run, c3 :: c4 :: rest') =>
        if run ≠ [] ∧ c3 = rbrace ∧ c4 = rbrace then
          (escapeForDoubleQuotes (varGet vars (String.mk run))).data ++
            applyVarsAux vars fuel rest'
        else c :: applyVarsAux vars fuel (c2 :: rest2)
      | _ => c :: applyVarsAux vars fuel (c2 :: rest2)
    else c :: applyVarsAux vars fuel (c2 :: rest2)

/-- `applyVars(script, vars)`.  The scanner consumes at least one character
per step, so fuel `script.data.length` is always sufficient (each recursive
call above strictly shrinks the character list). -/
def applyVars (script : String) (vars : List (String × String)) : String :=
  String.mk (applyVarsAux vars script.data.length script.data)

/-- The `GenerateInput` record. -/
structure GenerateInput where
  os : OS
  selectedIds : List String
  vars : List (String × String)

/-- The result record of `generateScript`. -/
structure GenerateResult where
  script : String
  includedIds : List String
deriving DecidableEq, Repr

/-- The fixed preamble block pushed first by `generateScript`. -/
def headerBlock (os : OS) : String :=
  "#!/usr/bin/env bash\nset -e\n\necho \"====================================\"\necho \"AI Lab Install Script Builder - RUN\"\necho \"OS: " ++
    osToString os ++ "\"\necho \"====================================\"\n"

/-- The fixed closing block pushed last by `generateScript`. -/
def footerBlock : String :=
  "\necho \"====================================\"\necho \"[DONE] Script finished.\"\necho \"====================================\"\n"

/-- The skip notice for a module with no (or an empty, hence falsy) script
fragment on the requested OS. -/
def skipNotice (mod : ModuleDef) (os : OS) : String :=
  "echo \"[SKIP] " ++ mod.name ++ " (not supported on " ++ osToString os ++ ")\""

/-- The banner comment block preceding a rendered fragment. -/
def bannerBlock (mod : ModuleDef) : String :=
  "\n# --------------------------------------------\n# " ++ mod.name ++ " (" ++
    mod.id ++ ")\n# --------------------------------------------\n"

/-- The blocks contributed by one id of the resolved order — the body of the
`for (const id of ordered)` loop of `generateScript`: a missing module
contributes nothing, a falsy fragment (`!s`: absent entry or empty string)
contributes the single skip notice, and otherwise the banner plus the
substituted fragment are contributed. -/
def moduleBlocks (byId : List (String × ModuleDef)) (os : OS)
    (vars : List (String × String)) (id : String) : List String :=
  match mapGet byId id with
  | none => []
  | some mod =>
    match mod.script.get os with
    | none => [skipNotice mod os]
    | some s =>
      if s = "" then [skipNotice mod os]
      else [bannerBlock mod, applyVars s vars]

/-- `generateScript(input)`, with the registry made an explicit parameter
(the source closes over the constant `MODULES`). -/
def generateScript (mods : List ModuleDef) (input : GenerateInput) :
    GenerateResult :=
  let byId := mapById mods
  let withDeps := resolveWithDeps input.selectedIds byId
  let ordered := uniqueKeepOrder withDeps
  let blocks :=
    (ordered.foldl (fun bs id => bs ++ moduleBlocks byId input.os input.vars id)
      [headerBlock input.os]) ++ [footerBlock]
  { script := String.intercalate "\n" blocks, includedIds := ordered }

/-- The shipped registry `MODULES` (`src/registry/modules.ts`), restricted to
the fields the engine reads (id, name, requires — `[]` when absent — and the
per-OS script fragments).  Placeholder braces are written `\x7b`/`\x7d` and
apostrophes `\x27`. -/
def MODULES : List ModuleDef := [
  { id := "base.clt", name := "Xcode Command Line Tools", requires := [],
    script :=
      { mac := some "\necho \"[CLT] Checking Xcode Command Line Tools...\"\nif xcode-select -p >/dev/null 2>&1; then\n  echo \"[CLT] Already installed. Skipping.\"\nelse\n  echo \"[CLT] Installing... (a popup may appear)\"\n  xcode-select --install || true\n  echo \"[CLT] If installer popup opened, finish it then re-run the script.\"\nfi\n",
        ubuntu := some "\necho \"[CLT] Not applicable on Ubuntu. Skipping.\"\n" } },
  { id := "base.homebrew", name := "Homebrew", requires := ["base.clt"],
    script :=
      { mac := some "\necho \"[BREW] Checking Homebrew...\"\nif command -v brew >/dev/null 2>&1; then\n  echo \"[BREW] Already installed. Skipping.\"\nelse\n  echo \"[BREW] Installing Homebrew...\"\n  NONINTERACTIVE=1 /bin/bash -c \"$(curl -fsSL https://raw.githubusercontent.com/Homebrew/install/HEAD/install.sh)\"\n  # Intel Mac 기준: /usr/local/bin/brew\n  if [ -x \"/usr/local/bin/brew\" ]; then\n    echo \"[BREW] Installed at /usr/local/bin/brew\"\n  fi\nfi\n",
        ubuntu := some "\necho \"[BREW] Not used on Ubuntu (apt preferred). Skipping.\"\n" } },
  { id := "base.apt", name := "apt update + essentials", requires := [],
    script :=
      { mac := some "\necho \"[APT] Not applicable on macOS. Skipping.\"\n",
        ubuntu := some "\necho \"[APT] Updating apt & installing essentials...\"\nsudo apt-get update -y\nsudo apt-get install -y curl git build-essential ca-certificates\n" } },
  { id := "dev.git", name := "Git", requires := ["base.homebrew"],
    script :=
      { mac := some "\necho \"[GIT] Installing git...\"\nif command -v git >/dev/null 2>&1; then\n  echo \"[GIT] Already installed. Skipping.\"\nelse\n  brew install git\nfi\n",
        ubuntu := some "\necho \"[GIT] Installing git...\"\nif command -v git >/dev/null 2>&1; then\n  echo \"[GIT] Already installed. Skipping.\"\nelse\n  sudo apt-get install -y git\nfi\n" } },
  { id := "dev.git_config", name := "Git: user.name / user.email",
    requires := ["dev.git"],
    script :=
      { mac := some "\necho \"[GIT-CONFIG] Setting global git identity...\"\ngit config --global user.name \"\x7b\x7bgit_name\x7d\x7d\"\ngit config --global user.email \"\x7b\x7bgit_email\x7d\x7d\"\ngit config --global init.defaultBranch main\ngit config --global fetch.prune true\ngit config --global core.autocrlf input\n",
        ubuntu := some "\necho \"[GIT-CONFIG] Setting global git identity...\"\ngit config --global user.name \"\x7b\x7bgit_name\x7d\x7d\"\ngit config --global user.email \"\x7b\x7bgit_email\x7d\x7d\"\ngit config --global init.defaultBranch main\ngit config --global fetch.prune true\ngit config --global core.autocrlf input\n" } },
  { id := "lang.nvm", name := "nvm (Node Version Manager)",
    requires := ["dev.git"],
    script :=
      { mac := some "\necho \"[NVM] Installing nvm...\"\nif [ -s \"$HOME/.nvm/nvm.sh\" ]; then\n  echo \"[NVM] Already installed. Skipping.\"\nelse\n  curl -fsSL https://raw.githubusercontent.com/nvm-sh/nvm/v0.40.3/install.sh | bash\nfi\nexport NVM_DIR=\"$HOME/.nvm\"\n[ -s \"$NVM_DIR/nvm.sh\" ] && . \"$NVM_DIR/nvm.sh\"\n",
        ubuntu := some "\necho \"[NVM] Installing nvm...\"\nif [ -s \"$HOME/.nvm/nvm.sh\" ]; then\n  echo \"[NVM] Already installed. Skipping.\"\nelse\n  curl -fsSL https://raw.githubusercontent.com/nvm-sh/nvm/v0.40.3/install.sh | bash\nfi\nexport NVM_DIR=\"$HOME/.nvm\"\n[ -s \"$NVM_DIR/nvm.sh\" ] && . \"$NVM_DIR/nvm.sh\"\n" } },
  { id := "lang.node_lts", name := "Node.js (LTS via nvm)",
    requires := ["lang.nvm"],
    script :=
      { mac := some "\necho \"[NODE] Installing Node LTS via nvm...\"\nexport NVM_DIR=\"$HOME/.nvm\"\n[ -s \"$NVM_DIR/nvm.sh\" ] && . \"$NVM_DIR/nvm.sh\"\nnvm install --lts\nnvm use --lts\nnvm alias default lts/*\necho \"[NODE] node=$(node -v) npm=$(npm -v)\"\n",
        ubuntu := some "\necho \"[NODE] Installing Node LTS via nvm...\"\nexport NVM_DIR=\"$HOME/.nvm\"\n[ -s \"$NVM_DIR/nvm.sh\" ] && . \"$NVM_DIR/nvm.sh\"\nnvm install --lts\nnvm use --lts\nnvm alias default lts/*\necho \"[NODE] node=$(node -v) npm=$(npm -v)\"\n" } },
  { id := "dev.vscode", name := "VS Code", requires := ["base.homebrew"],
    script :=
      { mac := some "\necho \"[VSCODE] Installing VS Code...\"\nif brew list --cask visual-studio-code >/dev/null 2>&1; then\n  echo \"[VSCODE] Already installed. Skipping.\"\nelse\n  brew install --cask visual-studio-code\nfi\n",
        ubuntu := some "\necho \"[VSCODE] Installing VS Code...\"\nif command -v code >/dev/null 2>&1; then\n  echo \"[VSCODE] Already installed. Skipping.\"\nelse\n  sudo snap install --classic code || true\n  if ! command -v code >/dev/null 2>&1; then\n    echo \"[VSCODE] Snap failed. Please install VS Code manually or via apt repo.\"\n  fi\nfi\n" } },
  { id := "dev.gh_cli", name := "GitHub CLI (gh)", requires := ["base.homebrew"],
    script :=
      { mac := some "\necho \"[GH] Installing GitHub CLI...\"\nif command -v gh >/dev/null 2>&1; then\n  echo \"[GH] Already installed. Skipping.\"\nelse\n  brew install gh\nfi\n",
        ubuntu := some "\necho \"[GH] Installing GitHub CLI...\"\nif command -v gh >/dev/null 2>&1; then\n  echo \"[GH] Already installed. Skipping.\"\nelse\n  sudo apt-get install -y gh || true\n  if ! command -v gh >/dev/null 2>&1; then\n    echo \"[GH] apt install failed. Please follow GitHub CLI official install.\"\n  fi\nfi\n" } },
  { id := "dev.github_ssh", name := "GitHub SSH Key (ed25519)", requires := [],
    script :=
      { mac := some "\necho \"[SSH] Setting up GitHub SSH key...\"\nmkdir -p \"$HOME/.ssh\"\nchmod 700 \"$HOME/.ssh\"\n\nif [ -f \"$HOME/.ssh/id_ed25519\" ]; then\n  echo \"[SSH] Key already exists. Skipping keygen.\"\nelse\n  ssh-keygen -t ed25519 -C \"\x7b\x7bssh_email\x7d\x7d\" -f \"$HOME/.ssh/id_ed25519\" -N \"\"\nfi\n\n# Start agent\neval \"$(ssh-agent -s)\" >/dev/null\nssh-add \"$HOME/.ssh/id_ed25519\" >/dev/null\n\n# Add github.com to known_hosts (avoid interactive prompt)\nssh-keyscan -t ed25519 github.com >> \"$HOME/.ssh/known_hosts\" 2>/dev/null || true\nchmod 600 \"$HOME/.ssh/known_hosts\"\n\necho \"[SSH] Public key:\"\ncat \"$HOME/.ssh/id_ed25519.pub\"\n",
        ubuntu := some "\necho \"[SSH] Setting up GitHub SSH key...\"\nmkdir -p \"$HOME/.ssh\"\nchmod 700 \"$HOME/.ssh\"\n\nif [ -f \"$HOME/.ssh/id_ed25519\" ]; then\n  echo \"[SSH] Key already exists. Skipping keygen.\"\nelse\n  ssh-keygen -t ed25519 -C \"\x7b\x7bssh_email\x7d\x7d\" -f \"$HOME/.ssh/id_ed25519\" -N \"\"\nfi\n\neval \"$(ssh-agent -s)\" >/dev/null\nssh-add \"$HOME/.ssh/id_ed25519\" >/dev/null\n\nssh-keyscan -t ed25519 github.com >> \"$HOME/.ssh/known_hosts\" 2>/dev/null || true\nchmod 600 \"$HOME/.ssh/known_hosts\"\n\necho \"[SSH] Public key:\"\ncat \"$HOME/.ssh/id_ed25519.pub\"\n" } },
  { id := "cli.ripgrep", name := "ripgrep (rg)", requires := ["base.homebrew"],
    script :=
      { mac := some "\necho \"[RG] Installing ripgrep...\"\ncommand -v rg >/dev/null 2>&1 || brew install ripgrep\n",
        ubuntu := some "\necho \"[RG] Installing ripgrep...\"\ncommand -v rg >/dev/null 2>&1 || sudo apt-get install -y ripgrep\n" } },
  { id := "cli.jq", name := "jq", requires := ["base.homebrew"],
    script :=
      { mac := some "\necho \"[JQ] Installing jq...\"\ncommand -v jq >/dev/null 2>&1 || brew install jq\n",
        ubuntu := some "\necho \"[JQ] Installing jq...\"\ncommand -v jq >/dev/null 2>&1 || sudo apt-get install -y jq\n" } },
  { id := "cli.fzf", name := "fzf", requires := ["base.homebrew"],
    script :=
      { mac := some "\necho \"[FZF] Installing fzf...\"\ncommand -v fzf >/dev/null 2>&1 || brew install fzf\n",
        ubuntu := some "\necho \"[FZF] Installing fzf...\"\ncommand -v fzf >/dev/null 2>&1 || sudo apt-get install -y fzf\n" } },
  { id := "cli.bat", name := "bat", requires := ["base.homebrew"],
    script :=
      { mac := some "\necho \"[BAT] Installing bat...\"\ncommand -v bat >/dev/null 2>&1 || brew install bat\n",
        ubuntu := some "\necho \"[BAT] Installing bat...\"\nif command -v bat >/dev/null 2>&1; then\n  echo \"[BAT] Already installed. Skipping.\"\nelse\n  sudo apt-get install -y bat || true\n  # Ubuntu에서는 batcat일 수 있음\nfi\n" } },
  { id := "cli.eza", name := "eza", requires := ["base.homebrew"],
    script :=
      { mac := some "\necho \"[EZA] Installing eza...\"\ncommand -v eza >/dev/null 2>&1 || brew install eza\n",
        ubuntu := some "\necho \"[EZA] Installing eza...\"\ncommand -v eza >/dev/null 2>&1 || sudo apt-get install -y eza || true\n" } },
  { id := "shell.starship", name := "Starship prompt",
    requires := ["base.homebrew"],
    script :=
      { mac := some "\necho \"[STARSHIP] Installing starship...\"\ncommand -v starship >/dev/null 2>&1 || brew install starship\necho \x27[ -x \"$(command -v starship)\" ] && eval \"$(starship init zsh)\"\x27 >> \"$HOME/.zshrc\"\n",
        ubuntu := some "\necho \"[STARSHIP] Installing starship...\"\ncommand -v starship >/dev/null 2>&1 || curl -fsSL https://starship.rs/install.sh | sh -s -- -y\necho \x27[ -x \"$(command -v starship)\" ] && eval \"$(starship init bash)\"\x27 >> \"$HOME/.bashrc\"\n" } },
  { id := "lang.python3", name := "Python3", requires := ["base.homebrew"],
    script :=
      { mac := some "\necho \"[PY] Installing python3...\"\ncommand -v python3 >/dev/null 2>&1 || brew install python\n",
        ubuntu := some "\necho \"[PY] Installing python3...\"\ncommand -v python3 >/dev/null 2>&1 || sudo apt-get install -y python3 python3-pip\n" } },
  { id := "lang.uv", name := "uv (fast Python package manager)",
    requires := ["lang.python3"],
    script :=
      { mac := some "\necho \"[UV] Installing uv...\"\ncommand -v uv >/dev/null 2>&1 || curl -fsSL https://astral.sh/uv/install.sh | sh\n",
        ubuntu := some "\necho \"[UV] Installing uv...\"\ncommand -v uv >/dev/null 2>&1 || curl -fsSL https://astral.sh/uv/install.sh | sh\n" } },
  { id := "verify.summary", name := "Verify: print versions summary",
    requires := [],
    script :=
      { mac := some "\necho \"------------------------------\"\necho \"[VERIFY] Versions summary\"\ncommand -v brew >/dev/null 2>&1 && brew --version | head -n 1 || true\ncommand -v git >/dev/null 2>&1 && git --version || true\ncommand -v node >/dev/null 2>&1 && node -v || true\ncommand -v npm >/dev/null 2>&1 && npm -v || true\ncommand -v python3 >/dev/null 2>&1 && python3 --version || true\ncommand -v rg >/dev/null 2>&1 && rg --version | head -n 1 || true\ncommand -v jq >/dev/null 2>&1 && jq --version || true\necho \"------------------------------\"\n",
        ubuntu := some "\necho \"------------------------------\"\necho \"[VERIFY] Versions summary\"\ncommand -v git >/dev/null 2>&1 && git --version || true\ncommand -v node >/dev/null 2>&1 && node -v || true\ncommand -v npm >/dev/null 2>&1 && npm -v || true\ncommand -v python3 >/dev/null 2>&1 && python3 --version || true\ncommand -v rg >/dev/null 2>&1 && rg --version | head -n 1 || true\ncommand -v jq >/dev/null 2>&1 && jq --version || true\necho \"------------------------------\"\n" } }]

/-- The dependency edge of a registry index: `m` requires `d` through a
module present in the index (absent modules have no outgoing edges, exactly
as in the DFS, which does not recurse from a missing id). -/
def reqStep (byId : List (String × ModuleDef)) (m d : String) : Prop :=
  ∃ mod, mapGet byId m = some mod ∧ d ∈ mod.requires

/-- Acyclicity of the requires relation of an index: no id transitively
requires itself. -/
def Acyclic (byId : List (String × ModuleDef)) : Prop :=
  ∀ x, ¬ Relation.TransGen (reqStep byId) x x

/-- Recursive rendering of the `uniqueKeepOrder` loop, used to reason about
the fold: `s` is the seen-set carried by the loop. -/
def ukoGo (s : List String) : List String → List String
  | [] => []
  | x :: xs => if x ∈ s then ukoGo s xs else x :: ukoGo (x :: s) xs

/-- Whether two consecutive opening braces occur anywhere in the text (the
necessary prefix of any `\x7b\x7bidentifier\x7d\x7d` token). -/
def hasDoubleOpen : List Char → Bool
  | [] => false
  | [_] => false
  | c :: c2 :: rest => (c = lbrace && c2 = lbrace) || hasDoubleOpen (c2 :: rest)

/-- Whether the text contains a placeholder token
`\x7b\x7b[a-zA-Z0-9_]+\x7d\x7d`, detected by the same left-to-right scan as
`applyVarsAux` (fuel `cs.length` is always sufficient). -/
def containsTokenGo : Nat → List Char → Bool
  | 0, _ => false
  | _ + 1, [] => false
  | _ + 1, [_] => false
  | fuel + 1, c :: c2 :: rest2 =>
    if c = lbrace ∧ c2 = lbrace then
      match rest2.span isIdChar with
      | (run, c3 :: c4 :: _) =>
        if run ≠ [] ∧ c3 = rbrace ∧ c4 = rbrace then true
        else containsTokenGo fuel (c2 :: rest2)
      | _ => containsTokenGo fuel (c2 :: rest2)
    else containsTokenGo fuel (c2 :: rest2)

/-- Whether the text contains a placeholder token. -/
def containsToken (cs : List Char) : Bool := containsTokenGo cs.length cs

/-- A template is well formed when every occurrence of two consecutive
opening braces begins a complete `\x7b\x7bidentifier\x7d\x7d` token (the
scan mirrors `applyVarsAux`; fuel `cs.length` is always sufficient). -/
def wfTemplateGo : Nat → List Char → Bool
  | 0, _ => false
  | _ + 1, [] => true
  | _ + 1, [_] => true
  | fuel + 1, c :: c2 :: rest2 =>
    if c = lbrace ∧ c2 = lbrace then
      match rest2.span isIdChar with
      | (run, c3 :: c4 :: rest') =>
        if run ≠ [] ∧ c3 = rbrace ∧ c4 = rbrace then wfTemplateGo fuel rest'
        else false
      | _ => false
    else wfTemplateGo fuel (c2 :: rest2)

/-- Well-formedness of a template. -/
def wfTemplate (cs : List Char) : Bool := wfTemplateGo cs.length cs

/-- The single-pass characterisation of `escapeForDoubleQuotes`: each of the
four special characters is prefixed with a backslash, any other character is
kept as is. -/
def escOne (c : Char) : List Char :=
  if c = '\\' ∨ c = '"' ∨ c = '$' ∨ c = btick then ['\\', c] else [c]

/-- Modelled from the spec: how a POSIX shell reads the characters placed
inside a double-quoted literal.  A backslash escapes a following backslash,
double quote, dollar or backtick (yielding that literal character); before
any other character the backslash is kept literally; an unescaped double
quote (which would terminate the literal early), dollar (expansion) or
backtick (command substitution), or a trailing backslash (which would escape
the closing quote), is a shell metacharacter effect and yields `none`. -/
def shellDQRead : List Char → Option (List Char)
  | [] => some []
  | c :: rest =>
    if c = '\\' then
      match rest with
      | [] => none
      | c2 :: rest2 =>
        if c2 = '\\' ∨ c2 = '"' ∨ c2 = '$' ∨ c2 = btick then
          (shellDQRead rest2).map (fun r => c2 :: r)
        else (shellDQRead rest2).map (fun r => '\\' :: c2 :: r)
    else if c = '"' ∨ c = '$' ∨ c = btick then none
    else (shellDQRead rest).map (fun r => c :: r)

/-- The number of index keys not yet visited (the measure that bounds the
remaining recursion depth of the DFS). -/
def keysLeft (byId : List (String × ModuleDef)) (st : DfsState) : Nat :=
  ((byId.map Prod.fst).toFinset \ st.visited.toFinset).card

/-- How a DFS call transforms its state: the visited set only grows; the
output is only appended to, with the freshly appended ids pairwise distinct,
previously unvisited, finally visited, and present in the index; and every
index key visited by the call ends up in the output (keys never stay merely
visited: a key is pushed by the very call that first visits it). -/
def DfsLe (byId : List (String × ModuleDef)) (st st' : DfsState) : Prop :=
  st.visited ⊆ st'.visited ∧
  (∀ x, (mapGet byId x).isSome → x ∈ st'.visited → x ∈ st'.out ∨ x ∈ st.visited) ∧
  ∃ t, st'.out = st.out ++ t ∧ t.Nodup ∧
    ∀ x ∈ t, x ∉ st.visited ∧ x ∈ st'.visited ∧ (mapGet byId x).isSome

/-- A grey id: an index key already marked visited but not yet pushed to the
output (it sits on the DFS call stack). -/
def IsGrey (byId : List (String × ModuleDef)) (st : DfsState) (x : String) :
    Prop :=
  (mapGet byId x).isSome ∧ x ∈ st.visited ∧ x ∉ st.out

/-- The ordering invariant of the DFS output: no duplicates, output inside
the visited set, the output closed under dependencies that are index keys,
and no id listed before one of its own dependencies. -/
def TopoInv (byId : List (String × ModuleDef)) (st : DfsState) : Prop :=
  st.out.Nodup ∧ (∀ x ∈ st.out, x ∈ st.visited) ∧
  (∀ m ∈ st.out, ∀ d, reqStep byId m d → (mapGet byId d).isSome → d ∈ st.out) ∧
  st.out.Pairwise (fun a b => ¬ reqStep byId a b)

/-- Removal of every occurrence of the id `u` from a module's requires. -/
def stripReq (u : String) (m : ModuleDef) : ModuleDef :=
  { m with requires := m.requires.filter (fun d => d ≠ u) }

/-- The registry with every reference to the id `u` removed from every
requires list. -/
def removeRef (u : String) (mods : List ModuleDef) : List ModuleDef :=
  mods.map (stripReq u)

/-- Correspondence between a DFS state of the original run and one of the
run on the registry with the unknown id `u` erased: same output so far, `u`
never visited on the erased side, and the visited sets agree on every other
id. -/
def BisimRel (u : String) (stL stR : DfsState) : Prop :=
  stL.out = stR.out ∧ u ∉ stR.visited ∧
  ∀ x, x ≠ u → (x ∈ stL.visited ↔ x ∈ stR.visited)

/-- A two-module registry whose requires relation is the cycle
`A requires B, B requires A`. -/
def modA : ModuleDef :=
  { id := "A", name := "Module A", requires := ["B"],
    script := { mac := some "echo a", ubuntu := some "echo a" } }

/-- Second half of the cyclic registry. -/
def modB : ModuleDef :=
  { id := "B", name := "Module B", requires := ["A"],
    script := { mac := some "echo b", ubuntu := some "echo b" } }

/-- An acyclic two-module chain: `P requires Q`. -/
def modP : ModuleDef :=
  { id := "P", name := "Module P", requires := ["Q"],
    script := { mac := some "echo p", ubuntu := some "echo p" } }

/-- Dependency-free endpoint of the chain. -/
def modQ : ModuleDef :=
  { id := "Q", name := "Module Q", requires := [],
    script := { mac := some "echo q", ubuntu := some "echo q" } }

/-- A module referencing the non-existent id `ghost`. -/
def modG : ModuleDef :=
  { id := "G", name := "Module G", requires := ["ghost"],
    script := { mac := some "echo g", ubuntu := some "echo g" } }

/-- A module with no fragment for Ubuntu. -/
def modS : ModuleDef :=
  { id := "S", name := "Module S", requires := [],
    script := { mac := some "echo s", ubuntu := none } }

/-- A module whose macOS fragment is the empty string (a falsy fragment). -/
def modE : ModuleDef :=
  { id := "E", name := "Module E", requires := [],
    script := { mac := some "", ubuntu := some "echo e" } }

/-! ### `uniqueKeepOrder`: first-occurrence de-duplication -/

lemma uko_fold_eq (l : List String) (s r : List String) :
    (l.foldl
      (fun (acc : List String × List String) x =>
        if x ∈ acc.1 then acc else (x :: acc.1, acc.2 ++ [x])) (s, r)).2 =
      r ++ ukoGo s l := by
  induction l generalizing s r with
  | nil => simp [ukoGo]
  | cons x xs ih =>
    by_cases h : x ∈ s
    · simp [h, ukoGo, ih]
    · simp [h, ukoGo, ih]

lemma uniqueKeepOrder_eq_ukoGo (l : List String) :
    uniqueKeepOrder l = ukoGo [] l := by
  simpa [uniqueKeepOrder] using uko_fold_eq l [] []

lemma mem_ukoGo (a : String) (l : List String) :
    ∀ s, a ∈ ukoGo s l ↔ a ∈ l ∧ a ∉ s := by
  induction l with
  | nil => intro s; simp [ukoGo]
  | cons x xs ih =>
    intro s
    by_cases h : x ∈ s
    · simp only [ukoGo, if_pos h, ih s, List.mem_cons]
      constructor
      · rintro ⟨hx, hs⟩
        exact ⟨Or.inr hx, hs⟩
      · rintro ⟨hx | hx, hs⟩
        · exact absurd (hx ▸ h) hs
        · exact ⟨hx, hs⟩
    · simp only [ukoGo, if_neg h, List.mem_cons, ih (x :: s)]
      constructor
      · rintro (rfl | ⟨hx, hs⟩)
        · exact ⟨Or.inl rfl, h⟩
        · exact ⟨Or.inr hx, fun hc => hs (Or.inr hc)⟩
      · rintro ⟨rfl | hx, hs⟩
        · exact Or.inl rfl
        · by_cases hax : a = x
          · exact Or.inl hax
          · exact Or.inr ⟨hx, fun hc => hc.elim hax hs⟩

lemma nodup_ukoGo (l : List String) : ∀ s, (ukoGo s l).Nodup := by
  induction l with
  | nil => intro s; simp [ukoGo]
  | cons x xs ih =>
    intro s
    by_cases h : x ∈ s
    · simpa [ukoGo, h] using ih s
    · simp only [ukoGo, if_neg h, List.nodup_cons]
      refine ⟨fun hx => ?_, ih (x :: s)⟩
      exact ((mem_ukoGo x xs (x :: s)).1 hx).2 (List.mem_cons_self _ _)

lemma pairwise_ukoGo (l : List String) :
    ∀ s, (ukoGo s l).Pairwise (fun a b => l.indexOf a < l.indexOf b) := by
  induction l with
  | nil => intro s; simp [ukoGo]
  | cons x xs ih =>
    intro s
    have hshift : ∀ a, a ≠ x → (x :: xs).indexOf a = xs.indexOf a + 1 := by
      intro a ha
      simp [List.indexOf_cons, Ne.symm ha, beq_false_of_ne (Ne.symm ha)]
    by_cases h : x ∈ s
    · rw [ukoGo, if_pos h]
      refine (ih s).imp_of_mem ?_
      intro a b hma hmb hlt
      have hax : a ≠ x := fun hc =>
        ((mem_ukoGo a xs s).1 hma).2 (hc ▸ h)
      have hbx : b ≠ x := fun hc =>
        ((mem_ukoGo b xs s).1 hmb).2 (hc ▸ h)
      rw [hshift a hax, hshift b hbx]
      omega
    · rw [ukoGo, if_neg h]
      refine List.pairwise_cons.2 ⟨?_, ?_⟩
      · intro b hb
        have hbx : b ≠ x := fun hc =>
          ((mem_ukoGo b xs (x :: s)).1 hb).2 (hc ▸ List.mem_cons_self x s)
        rw [List.indexOf_cons_self, hshift b hbx]
        omega
      · refine (ih (x :: s)).imp_of_mem ?_
        intro a b hma hmb hlt
        have hax : a ≠ x := fun hc =>
          ((mem_ukoGo a xs (x :: s)).1 hma).2 (hc ▸ List.mem_cons_self x s)
        have hbx : b ≠ x := fun hc =>
          ((mem_ukoGo b xs (x :: s)).1 hmb).2 (hc ▸ List.mem_cons_self x s)
        rw [hshift a hax, hshift b hbx]
        omega

lemma uniqueKeepOrder_nodup (l : List String) : (uniqueKeepOrder l).Nodup := by
  rw [uniqueKeepOrder_eq_ukoGo]; exact nodup_ukoGo l []

lemma mem_uniqueKeepOrder (a : String) (l : List String) :
    a ∈ uniqueKeepOrder l ↔ a ∈ l := by
  rw [uniqueKeepOrder_eq_ukoGo]
  simpa using mem_ukoGo a l []

lemma uniqueKeepOrder_eq_self (l : List String) (hl : l.Nodup) :
    uniqueKeepOrder l = l := by
  rw [uniqueKeepOrder_eq_ukoGo]
  suffices h : ∀ s, (∀ x ∈ l, x ∉ s) → ukoGo s l = l from h [] (by simp)
  induction l with
  | nil => intro s _; simp [ukoGo]
  | cons x xs ih =>
    intro s hs
    rw [ukoGo, if_neg (hs x (List.mem_cons_self _ _))]
    rw [List.nodup_cons] at hl
    refine congrArg (x :: ·) (ih hl.2 (x :: s) ?_)
    intro y hy
    simp only [List.mem_cons]
    rintro (rfl | hys)
    · exact hl.1 hy
    · exact hs y (List.mem_cons_of_mem _ hy) hys

lemma generateScript_includedIds (mods : List ModuleDef)
    (input : GenerateInput) :
    (generateScript mods input).includedIds =
      uniqueKeepOrder (resolveWithDeps input.selectedIds (mapById mods)) := rfl

/-- **C4** — idempotent de-duplication: `includedIds` never contains a
repeated id, and `uniqueKeepOrder` keeps, for an arbitrary input list, the
first occurrence of every id in first-seen order (the output is duplicate
free, has exactly the members of the input, and is strictly sorted by the
position of each id's first occurrence in the input). -/
theorem claim_C4_idempotent_dedup :
    (∀ (mods : List ModuleDef) (input : GenerateInput),
      ((generateScript mods input).includedIds).Nodup) ∧
    ∀ l : List String,
      (uniqueKeepOrder l).Nodup ∧
      (∀ x, x ∈ uniqueKeepOrder l ↔ x ∈ l) ∧
      (uniqueKeepOrder l).Pairwise (fun a b => l.indexOf a < l.indexOf b) := by
  refine ⟨fun mods input => ?_, fun l => ?_⟩
  · rw [generateScript_includedIds]
    exact uniqueKeepOrder_nodup _
  · refine ⟨uniqueKeepOrder_nodup l, fun x => mem_uniqueKeepOrder x l, ?_⟩
    rw [uniqueKeepOrder_eq_ukoGo]
    exact pairwise_ukoGo l []

/-! ### Basic DFS facts: monotonicity, output extension, fuel sufficiency -/

lemma dfs_succ (byId : List (String × ModuleDef)) (f : Nat) (id : String)
    (st : DfsState) : dfs byId (f + 1) id st = dfsStep byId (dfs byId f) id st :=
  rfl

lemma dfsStep_visited {byId : List (String × ModuleDef)}
    {rec : String → DfsState → DfsState} {id : String} {st : DfsState}
    (h : id ∈ st.visited) : dfsStep byId rec id st = st := by
  simp [dfsStep, h]

lemma dfsStep_none {byId : List (String × ModuleDef)}
    {rec : String → DfsState → DfsState} {id : String} {st : DfsState}
    (h1 : id ∉ st.visited) (h2 : mapGet byId id = none) :
    dfsStep byId rec id st = ⟨id :: st.visited, st.out⟩ := by
  simp [dfsStep, h1, h2]

lemma dfsStep_some {byId : List (String × ModuleDef)}
    {rec : String → DfsState → DfsState} {id : String} {st : DfsState}
    {mod : ModuleDef} (h1 : id ∉ st.visited) (h2 : mapGet byId id = some mod) :
    dfsStep byId rec id st =
      ⟨(mod.requires.foldl (fun s d => rec d s) ⟨id :: st.visited, st.out⟩).visited,
       (mod.requires.foldl (fun s d => rec d s) ⟨id :: st.visited, st.out⟩).out ++
         [id]⟩ := by
  simp [dfsStep, h1, h2]

lemma dfsLe_refl (byId : List (String × ModuleDef)) (st : DfsState) :
    DfsLe byId st st :=
  ⟨fun _ hx => hx, fun _ _ hx => Or.inr hx, [], by simp, by simp, by simp⟩

lemma dfsLe_trans {byId : List (String × ModuleDef)} {st1 st2 st3 : DfsState}
    (h12 : DfsLe byId st1 st2) (h23 : DfsLe byId st2 st3) :
    DfsLe byId st1 st3 := by
  obtain ⟨hv12, hg12, t1, ho12, hn1, hp1⟩ := h12
  obtain ⟨hv23, hg23, t2, ho23, hn2, hp2⟩ := h23
  refine ⟨fun x hx => hv23 (hv12 hx), ?_, t1 ++ t2, ?_, ?_, ?_⟩
  · intro x hk hx
    rcases hg23 x hk hx with h | h
    · exact Or.inl h
    · rcases hg12 x hk h with h' | h'
      · exact Or.inl (ho23 ▸ List.mem_append_left _ h')
      · exact Or.inr h'
  · rw [ho23, ho12, List.append_assoc]
  · refine List.Nodup.append hn1 hn2 ?_
    intro x hx1 hx2
    exact (hp2 x hx2).1 ((hp1 x hx1).2.1)
  · intro x hx
    rcases List.mem_append.1 hx with h | h
    · exact ⟨(hp1 x h).1, hv23 (hp1 x h).2.1, (hp1 x h).2.2⟩
    · exact ⟨fun hc => (hp2 x h).1 (hv12 hc), (hp2 x h).2.1, (hp2 x h).2.2⟩

lemma foldl_dfsLe {byId : List (String × ModuleDef)}
    (f : String → DfsState → DfsState)
    (h : ∀ id st, DfsLe byId st (f id st)) :
    ∀ (l : List String) (st : DfsState),
      DfsLe byId st (l.foldl (fun s d => f d s) st) := by
  intro l
  induction l with
  | nil => intro st; exact dfsLe_refl byId st
  | cons d ds ih =>
    intro st
    rw [List.foldl_cons]
    exact dfsLe_trans (h d st) (ih (f d st))

lemma dfs_le (byId : List (String × ModuleDef)) :
    ∀ (fuel : Nat) (id : String) (st : DfsState),
      DfsLe byId st (dfs byId fuel id st) := by
  intro fuel
  induction fuel with
  | zero => intro id st; exact dfsLe_refl byId st
  | succ f ih =>
    intro id st
    rw [dfs_succ]
    by_cases hv : id ∈ st.visited
    · rw [dfsStep_visited hv]; exact dfsLe_refl byId st
    · cases hm : mapGet byId id with
      | none =>
        rw [dfsStep_none hv hm]
        refine ⟨fun x hx => List.mem_cons_of_mem _ hx, ?_, [], by simp, by simp,
          by simp⟩
        intro x hk hx
        rcases List.mem_cons.1 hx with rfl | hx'
        · rw [hm] at hk; simp at hk
        · exact Or.inr hx'
      | some mod =>
        rw [dfsStep_some hv hm]
        have h2 := foldl_dfsLe (dfs byId f) ih mod.requires ⟨id :: st.visited, st.out⟩
        obtain ⟨hv12, hg12, t2, ho12, hn2, hp2⟩ := h2
        refine ⟨?_, ?_, t2 ++ [id], ?_, ?_, ?_⟩
        · exact fun x hx => hv12 (List.mem_cons_of_mem _ hx)
        · intro x hk hx
          rcases hg12 x hk hx with h | h
          · exact Or.inl (List.mem_append_left _ h)
          · rcases List.mem_cons.1 h with rfl | h'
            · exact Or.inl (List.mem_append_right _ (List.mem_singleton.2 rfl))
            · exact Or.inr h'
        · show _ ++ [id] = st.out ++ (t2 ++ [id])
          rw [ho12]; simp
        · refine List.Nodup.append hn2 (List.nodup_singleton id) ?_
          intro x hx1 hx2
          rw [List.mem_singleton] at hx2; subst hx2
          exact (hp2 x hx1).1 (List.mem_cons_self _ _)
        · intro x hx
          rcases List.mem_append.1 hx with h | h
          · exact ⟨fun hc => (hp2 x h).1 (List.mem_cons_of_mem _ hc),
              (hp2 x h).2.1, (hp2 x h).2.2⟩
          · rw [List.mem_singleton] at h; subst h
            exact ⟨hv, hv12 (List.mem_cons_self _ _), by simp [hm]⟩

lemma dfsList_le (byId : List (String × ModuleDef)) (fuel : Nat)
    (l : List String) (st : DfsState) :
    DfsLe byId st (dfsList byId fuel l st) :=
  foldl_dfsLe (dfs byId fuel) (dfs_le byId fuel) l st

lemma dfs_visited_mono (byId : List (String × ModuleDef)) (fuel : Nat)
    (id : String) (st : DfsState) :
    st.visited ⊆ (dfs byId fuel id st).visited :=
  (dfs_le byId fuel id st).1

lemma dfs_visits (byId : List (String × ModuleDef)) (fuel : Nat) (id : String)
    (st : DfsState) (h : 1 ≤ fuel) : id ∈ (dfs byId fuel id st).visited := by
  cases fuel with
  | zero => omega
  | succ f =>
    rw [dfs_succ]
    by_cases hv : id ∈ st.visited
    · rw [dfsStep_visited hv]; exact hv
    · cases hm : mapGet byId id with
      | none => rw [dfsStep_none hv hm]; exact List.mem_cons_self _ _
      | some mod =>
        rw [dfsStep_some hv hm]
        exact (foldl_dfsLe (dfs byId f) (dfs_le byId f) mod.requires
          ⟨id :: st.visited, st.out⟩).1 (List.mem_cons_self _ _)

lemma mapGet_isSome_mem_keys {byId : List (String × ModuleDef)} {id : String}
    (h : (mapGet byId id).isSome) : id ∈ byId.map Prod.fst := by
  induction byId with
  | nil => simp [mapGet] at h
  | cons p rest ih =>
    rw [mapGet] at h
    cases hr : mapGet rest id with
    | some r => exact List.mem_cons_of_mem _ (ih (by simp [hr]))
    | none =>
      rw [hr] at h
      by_cases hk : p.1 = id
      · exact hk ▸ List.mem_cons_self _ _
      · simp [hk] at h

lemma keysLeft_mono (byId : List (String × ModuleDef)) {st st' : DfsState}
    (h : st.visited ⊆ st'.visited) : keysLeft byId st' ≤ keysLeft byId st := by
  refine Finset.card_le_card (Finset.sdiff_subset_sdiff (le_refl _) ?_)
  intro x hx
  rw [List.mem_toFinset] at hx ⊢
  exact h hx

lemma keysLeft_cons (byId : List (String × ModuleDef)) (st : DfsState)
    {id : String} (out : List String) (hk : (mapGet byId id).isSome)
    (hv : id ∉ st.visited) :
    keysLeft byId ⟨id :: st.visited, out⟩ + 1 = keysLeft byId st := by
  have hmem : id ∈ (byId.map Prod.fst).toFinset \ st.visited.toFinset := by
    rw [Finset.mem_sdiff, List.mem_toFinset, List.mem_toFinset]
    exact ⟨mapGet_isSome_mem_keys hk, hv⟩
  have hpos : 0 < ((byId.map Prod.fst).toFinset \ st.visited.toFinset).card :=
    Finset.card_pos.2 ⟨id, hmem⟩
  have : keysLeft byId ⟨id :: st.visited, out⟩ =
      ((byId.map Prod.fst).toFinset \ st.visited.toFinset).card - 1 := by
    unfold keysLeft
    rw [show (⟨id :: st.visited, out⟩ : DfsState).visited = id :: st.visited
      from rfl]
    rw [List.toFinset_cons, Finset.sdiff_insert, Finset.card_erase_of_mem hmem]
  unfold keysLeft at *
  omega

lemma keysLeft_start_le (byId : List (String × ModuleDef)) :
    keysLeft byId ⟨[], []⟩ ≤ byId.length := by
  unfold keysLeft
  calc ((byId.map Prod.fst).toFinset \ ([] : List String).toFinset).card
      ≤ (byId.map Prod.fst).toFinset.card :=
        Finset.card_le_card (Finset.sdiff_subset)
    _ ≤ (byId.map Prod.fst).length := List.toFinset_card_le _
    _ = byId.length := List.length_map _ _

lemma dfs_fuel_succ (byId : List (String × ModuleDef)) :
    ∀ fuel, ∀ (id : String) (st : DfsState), keysLeft byId st + 1 ≤ fuel →
      dfs byId fuel id st = dfs byId (fuel + 1) id st := by
  intro fuel
  induction fuel with
  | zero => intro id st h; omega
  | succ f ih =>
    intro id st hfu
    rw [dfs_succ, dfs_succ]
    by_cases hv : id ∈ st.visited
    · rw [dfsStep_visited hv, dfsStep_visited hv]
    · cases hm : mapGet byId id with
      | none => rw [dfsStep_none hv hm, dfsStep_none hv hm]
      | some mod =>
        rw [dfsStep_some hv hm, dfsStep_some hv hm]
        have hlist : ∀ (l : List String) (st' : DfsState),
            keysLeft byId st' + 1 ≤ f →
            l.foldl (fun s d => dfs byId f d s) st' =
              l.foldl (fun s d => dfs byId (f + 1) d s) st' := by
          intro l
          induction l with
          | nil => intro st' _; simp
          | cons d ds ihl =>
            intro st' h'
            rw [List.foldl_cons, List.foldl_cons, ← ih d st' h']
            refine ihl (dfs byId f d st') ?_
            have := keysLeft_mono byId
              (dfs_visited_mono byId f d st')
            omega
        have had : keysLeft byId (⟨id :: st.visited, st.out⟩ : DfsState) + 1 ≤ f := by
          have := keysLeft_cons byId st st.out
            (by simp [hm]) hv
          omega
        rw [hlist mod.requires ⟨id :: st.visited, st.out⟩ had]

lemma dfs_fuel_ge (byId : List (String × ModuleDef)) (fuel fuel' : Nat)
    (id : String) (st : DfsState) (h1 : keysLeft byId st + 1 ≤ fuel)
    (h2 : fuel ≤ fuel') : dfs byId fuel id st = dfs byId fuel' id st := by
  induction fuel', h2 using Nat.le_induction with
  | base => rfl
  | succ n hn ihn => rw [ihn, dfs_fuel_succ byId n id st (by omega)]

lemma dfsList_fuel_ge (byId : List (String × ModuleDef)) (fuel fuel' : Nat)
    (l : List String) (st : DfsState) (h1 : keysLeft byId st + 1 ≤ fuel)
    (h2 : fuel ≤ fuel') : dfsList byId fuel l st = dfsList byId fuel' l st := by
  induction l generalizing st with
  | nil => rfl
  | cons d ds ih =>
    show (d :: ds).foldl (fun s d => dfs byId fuel d s) st =
      (d :: ds).foldl (fun s d => dfs byId fuel' d s) st
    rw [List.foldl_cons, List.foldl_cons,
      ← dfs_fuel_ge byId fuel fuel' d st h1 h2]
    refine ih (dfs byId fuel d st) ?_
    have := keysLeft_mono byId (dfs_visited_mono byId fuel d st)
    omega

/-- **C3** — cycle safety and termination: the embedded `resolveWithDeps`
computes a fuel-independent answer (any fuel at and beyond the definitional
bound `byId.length + 1` gives the same output, i.e. the source recursion
terminates within that depth on every input), and on the cyclic registry
`A requires B, B requires A` resolving `[A]` yields both `A` and `B`,
each exactly once, with no failure value of any kind. -/
theorem claim_C3_cycle_safety :
    (∀ (byId : List (String × ModuleDef)) (ids : List String) (k : Nat),
      resolveWithDepsFuel (byId.length + 1 + k) ids byId =
        resolveWithDeps ids byId) ∧
    resolveWithDeps ["A"] (mapById [modA, modB]) = ["B", "A"] ∧
    (resolveWithDeps ["A"] (mapById [modA, modB])).count "A" = 1 ∧
    (resolveWithDeps ["A"] (mapById [modA, modB])).count "B" = 1 := by
  refine ⟨fun byId ids k => ?_, by decide, by decide, by decide⟩
  unfold resolveWithDeps resolveWithDepsFuel
  rw [← dfsList_fuel_ge byId (byId.length + 1) (byId.length + 1 + k) ids ⟨[], []⟩
    (by have := keysLeft_start_le byId; omega) (by omega)]

/-! ### Dependency closure of the DFS output -/

lemma dfsList_visits (byId : List (String × ModuleDef)) (fuel : Nat)
    (hf : 1 ≤ fuel) (l : List String) :
    ∀ st : DfsState, ∀ d ∈ l, d ∈ (dfsList byId fuel l st).visited := by
  induction l with
  | nil => intro st d hd; simp at hd
  | cons x xs ih =>
    intro st d hd
    show d ∈ ((x :: xs).foldl (fun s d => dfs byId fuel d s) st).visited
    rw [List.foldl_cons]
    rcases List.mem_cons.1 hd with rfl | hd'
    · exact (foldl_dfsLe (dfs byId fuel) (dfs_le byId fuel) xs _).1
        (dfs_visits byId fuel d st hf)
    · exact ih (dfs byId fuel x st) d hd'

lemma dfs_closure (byId : List (String × ModuleDef)) :
    ∀ fuel, ∀ (id : String) (st : DfsState),
      keysLeft byId st + 1 ≤ fuel →
      (∀ m ∈ st.out, ∀ d, reqStep byId m d → d ∈ st.visited) →
      ∀ m ∈ (dfs byId fuel id st).out, ∀ d, reqStep byId m d →
        d ∈ (dfs byId fuel id st).visited := by
  intro fuel
  induction fuel with
  | zero => intro id st h; omega
  | succ f ih =>
    intro id st hfu hcl
    rw [dfs_succ]
    by_cases hv : id ∈ st.visited
    · rw [dfsStep_visited hv]; exact hcl
    · cases hm : mapGet byId id with
      | none =>
        rw [dfsStep_none hv hm]
        intro m hmo d hr
        exact List.mem_cons_of_mem _ (hcl m hmo d hr)
      | some mod =>
        rw [dfsStep_some hv hm]
        have had : keysLeft byId (⟨id :: st.visited, st.out⟩ : DfsState) + 1 ≤ f := by
          have := keysLeft_cons byId st st.out
            (by simp [hm]) hv
          omega
        have hcl1 : ∀ m ∈ (⟨id :: st.visited, st.out⟩ : DfsState).out, ∀ d,
            reqStep byId m d → d ∈ (⟨id :: st.visited, st.out⟩ : DfsState).visited := by
          intro m hmo d hr
          exact List.mem_cons_of_mem _ (hcl m hmo d hr)
        have hinner : ∀ (l : List String) (st' : DfsState),
            keysLeft byId st' + 1 ≤ f →
            (∀ m ∈ st'.out, ∀ d, reqStep byId m d → d ∈ st'.visited) →
            (∀ m ∈ (l.foldl (fun s d => dfs byId f d s) st').out, ∀ d,
              reqStep byId m d →
                d ∈ (l.foldl (fun s d => dfs byId f d s) st').visited) ∧
            ∀ d ∈ l, d ∈ (l.foldl (fun s d => dfs byId f d s) st').visited := by
          intro l
          induction l with
          | nil =>
            intro st' _ hcl'
            exact ⟨by simpa using hcl', by simp⟩
          | cons x xs ihl =>
            intro st' h' hcl'
            have hclm := ih x st' h' hcl'
            have hadm : keysLeft byId (dfs byId f x st') + 1 ≤ f := by
              have := keysLeft_mono byId
                (dfs_visited_mono byId f x st')
              omega
            have hrec := ihl (dfs byId f x st') hadm hclm
            rw [List.foldl_cons]
            refine ⟨hrec.1, ?_⟩
            intro d hd
            rcases List.mem_cons.1 hd with rfl | hd'
            · exact (foldl_dfsLe (dfs byId f) (dfs_le byId f) xs _).1
                (dfs_visits byId f d st' (by omega))
            · exact hrec.2 d hd'
        obtain ⟨hclf, hallf⟩ := hinner mod.requires ⟨id :: st.visited, st.out⟩
          had hcl1
        intro m hmo d hr
        rcases List.mem_append.1 hmo with hmo' | hmo'
        · exact hclf m hmo' d hr
        · rw [List.mem_singleton] at hmo'; subst hmo'
          obtain ⟨mod', hmod', hd⟩ := hr
          rw [hm] at hmod'
          cases hmod'
          exact hallf d hd

lemma dfsList_closure (byId : List (String × ModuleDef)) (fuel : Nat) :
    ∀ (l : List String) (st : DfsState), keysLeft byId st + 1 ≤ fuel →
      (∀ m ∈ st.out, ∀ d, reqStep byId m d → d ∈ st.visited) →
      ∀ m ∈ (dfsList byId fuel l st).out, ∀ d, reqStep byId m d →
        d ∈ (dfsList byId fuel l st).visited := by
  intro l
  induction l with
  | nil => intro st _ hcl; simpa [dfsList] using hcl
  | cons x xs ih =>
    intro st h hcl
    show ∀ m ∈ ((x :: xs).foldl (fun s d => dfs byId fuel d s) st).out, ∀ d,
      reqStep byId m d →
        d ∈ ((x :: xs).foldl (fun s d => dfs byId fuel d s) st).visited
    rw [List.foldl_cons]
    have hclm := dfs_closure byId fuel x st h hcl
    have hadm : keysLeft byId (dfs byId fuel x st) + 1 ≤ fuel := by
      have := keysLeft_mono byId (dfs_visited_mono byId fuel x st)
      omega
    exact ih (dfs byId fuel x st) hadm hclm

/-- **C2** — dependency closure: any id transitively required, through the
requires chains of index-present modules, by a selected id appears in the
`includedIds` of the generated result (the reached endpoint being itself
present in the index). -/
theorem claim_C2_dependency_closure (mods : List ModuleDef)
    (input : GenerateInput) (s d : String) (hs : s ∈ input.selectedIds)
    (hreach : Relation.TransGen (reqStep (mapById mods)) s d)
    (hd : (mapGet (mapById mods) d).isSome) :
    d ∈ (generateScript mods input).includedIds := by
  rw [generateScript_includedIds, mem_uniqueKeepOrder]
  set byId := mapById mods with hbyId
  set F := byId.length + 1 with hF
  set final := dfsList byId F input.selectedIds ⟨[], []⟩ with hfinal
  have hstart : keysLeft byId (⟨[], []⟩ : DfsState) + 1 ≤ F := by
    have := keysLeft_start_le byId
    omega
  have hclosure : ∀ m ∈ final.out, ∀ d', reqStep byId m d' →
      d' ∈ final.visited :=
    dfsList_closure byId F input.selectedIds ⟨[], []⟩ hstart (by simp)
  have hgrey : ∀ x, (mapGet byId x).isSome → x ∈ final.visited →
      x ∈ final.out := by
    intro x hk hx
    rcases (dfsList_le byId F input.selectedIds ⟨[], []⟩).2.1 x hk hx with h | h
    · exact h
    · simp at h
  have hsel : s ∈ final.visited :=
    dfsList_visits byId F (by omega) input.selectedIds ⟨[], []⟩ s hs
  have key : ∀ y, Relation.TransGen (reqStep byId) s y →
      (mapGet byId y).isSome → y ∈ final.out := by
    intro y hy
    induction hy with
    | single h =>
      intro hk
      have hks : (mapGet byId s).isSome := by
        obtain ⟨mod, hmod, _⟩ := h
        simp [hmod]
      exact hgrey _ hk (hclosure s (hgrey s hks hsel) _ h)
    | tail hab hbc ih =>
      rename_i b c
      intro hk
      have hkb : (mapGet byId b).isSome := by
        obtain ⟨mod, hmod, _⟩ := hbc
        simp [hmod]
      exact hgrey _ hk (hclosure _ (ih hkb) _ hbc)
  exact key d hreach hd

/-! ### Topological order of the DFS output on acyclic registries -/

lemma greys_sub {byId : List (String × ModuleDef)} {st st' : DfsState}
    (h : DfsLe byId st st') :
    ∀ x, IsGrey byId st' x → IsGrey byId st x := by
  rintro x ⟨hk, hv, ho⟩
  rcases h.2.1 x hk hv with hout | hvis
  · exact absurd hout ho
  · obtain ⟨t, hto, _, _⟩ := h.2.2
    refine ⟨hk, hvis, fun hc => ho ?_⟩
    rw [hto]
    exact List.mem_append_left _ hc

lemma topo_main (byId : List (String × ModuleDef)) (hacyc : Acyclic byId) :
    ∀ fuel, ∀ (id : String) (st : DfsState),
      keysLeft byId st + 1 ≤ fuel → TopoInv byId st →
      (∀ x, IsGrey byId st x → Relation.ReflTransGen (reqStep byId) x id) →
      TopoInv byId (dfs byId fuel id st) := by
  intro fuel
  induction fuel with
  | zero => intro id st h _ _; omega
  | succ f ih =>
    intro id st hfu hinv hgrey
    rw [dfs_succ]
    by_cases hv : id ∈ st.visited
    · rw [dfsStep_visited hv]; exact hinv
    · cases hm : mapGet byId id with
      | none =>
        rw [dfsStep_none hv hm]
        obtain ⟨h1, h2, h3, h4⟩ := hinv
        exact ⟨h1, fun x hx => List.mem_cons_of_mem _ (h2 x hx), h3, h4⟩
      | some mod =>
        rw [dfsStep_some hv hm]
        have had : keysLeft byId (⟨id :: st.visited, st.out⟩ : DfsState) + 1 ≤ f := by
          have := keysLeft_cons byId st st.out
            (by simp [hm]) hv
          omega
        have hinv1 : TopoInv byId ⟨id :: st.visited, st.out⟩ := by
          obtain ⟨h1, h2, h3, h4⟩ := hinv
          exact ⟨h1, fun x hx => List.mem_cons_of_mem _ (h2 x hx), h3, h4⟩
        have hgrey1 : ∀ x, IsGrey byId (⟨id :: st.visited, st.out⟩ : DfsState) x →
            ∀ dq ∈ mod.requires, Relation.ReflTransGen (reqStep byId) x dq := by
          rintro x ⟨hk, hxv, hxo⟩ dq hdq
          rcases List.mem_cons.1 hxv with rfl | hxv'
          · exact Relation.ReflTransGen.single ⟨mod, hm, hdq⟩
          · exact Relation.ReflTransGen.tail (hgrey x ⟨hk, hxv', hxo⟩)
              ⟨mod, hm, hdq⟩
        have hinner : ∀ (l : List String) (st' : DfsState),
            keysLeft byId st' + 1 ≤ f → TopoInv byId st' →
            (∀ x, IsGrey byId st' x →
              ∀ dq ∈ l, Relation.ReflTransGen (reqStep byId) x dq) →
            TopoInv byId (l.foldl (fun s d => dfs byId f d s) st') ∧
            ∀ dq ∈ l, dq ∈ (l.foldl (fun s d => dfs byId f d s) st').visited := by
          intro l
          induction l with
          | nil => intro st' _ hinv' _; exact ⟨hinv', by simp⟩
          | cons x xs ihl =>
            intro st' h' hinv' hgrey'
            rw [List.foldl_cons]
            have hinvm : TopoInv byId (dfs byId f x st') :=
              ih x st' h' hinv'
                (fun y hy => hgrey' y hy x (List.mem_cons_self _ _))
            have hadm : keysLeft byId (dfs byId f x st') + 1 ≤ f := by
              have := keysLeft_mono byId
                (dfs_visited_mono byId f x st')
              omega
            have hgreym : ∀ y, IsGrey byId (dfs byId f x st') y →
                ∀ dq ∈ xs, Relation.ReflTransGen (reqStep byId) y dq := by
              intro y hy dq hdq
              exact hgrey' y (greys_sub (dfs_le byId f x st') y hy) dq
                (List.mem_cons_of_mem _ hdq)
            obtain ⟨hrec1, hrec2⟩ := ihl (dfs byId f x st') hadm hinvm hgreym
            refine ⟨hrec1, ?_⟩
            intro dq hdq
            rcases List.mem_cons.1 hdq with rfl | hdq'
            · exact (foldl_dfsLe (dfs byId f) (dfs_le byId f) xs _).1
                (dfs_visits byId f dq st' (by omega))
            · exact hrec2 dq hdq'
        obtain ⟨hinv2, hvis2⟩ := hinner mod.requires ⟨id :: st.visited, st.out⟩
          had hinv1 hgrey1
        have hle12 : DfsLe byId (⟨id :: st.visited, st.out⟩ : DfsState)
            (mod.requires.foldl (fun s d => dfs byId f d s)
              ⟨id :: st.visited, st.out⟩) :=
          foldl_dfsLe (dfs byId f) (dfs_le byId f) mod.requires _
        obtain ⟨hnd2, hsub2, hcl2, hpw2⟩ := hinv2
        have hidout : id ∉ (mod.requires.foldl (fun s d => dfs byId f d s)
            (⟨id :: st.visited, st.out⟩ : DfsState)).out := by
          obtain ⟨t, hto, _, hp⟩ := hle12.2.2
          rw [hto]
          intro hc
          rcases List.mem_append.1 hc with hc | hc
          · exact hv (hinv.2.1 id hc)
          · exact (hp id hc).1 (List.mem_cons_self _ _)
        refine ⟨?_, ?_, ?_, ?_⟩
        · refine List.Nodup.append hnd2 (List.nodup_singleton id) ?_
          intro y hy1 hy2
          rw [List.mem_singleton] at hy2; subst y
          exact hidout hy1
        · intro y hy
          rcases List.mem_append.1 hy with hy' | hy'
          · exact hsub2 y hy'
          · rw [List.mem_singleton] at hy'; subst y
            exact hle12.1 (List.mem_cons_self _ _)
        · intro m hmo d hr hkd
          rcases List.mem_append.1 hmo with hmo' | hmo'
          · exact List.mem_append_left _ (hcl2 m hmo' d hr hkd)
          · rw [List.mem_singleton] at hmo'; subst m
            obtain ⟨mod', hmod', hd⟩ := hr
            rw [hm] at hmod'
            cases hmod'
            have hdvis : d ∈ (mod.requires.foldl (fun s d => dfs byId f d s)
                (⟨id :: st.visited, st.out⟩ : DfsState)).visited := hvis2 d hd
            by_cases hdout : d ∈ (mod.requires.foldl (fun s d => dfs byId f d s)
                (⟨id :: st.visited, st.out⟩ : DfsState)).out
            · exact List.mem_append_left _ hdout
            · have hdgrey1 : IsGrey byId (⟨id :: st.visited, st.out⟩ : DfsState) d :=
                greys_sub hle12 d ⟨hkd, hdvis, hdout⟩
              rcases List.mem_cons.1 hdgrey1.2.1 with rfl | hdv'
              · exact List.mem_append_right _ (List.mem_singleton.2 rfl)
              · exfalso
                refine hacyc d (Relation.TransGen.trans_right
                  (hgrey d ⟨hdgrey1.1, hdv', hdgrey1.2.2⟩)
                  (Relation.TransGen.single ⟨mod, hm, hd⟩))
        · rw [List.pairwise_append]
          refine ⟨hpw2, List.pairwise_singleton _ _, ?_⟩
          intro a ha b hb
          rw [List.mem_singleton] at hb; subst b
          intro hreq
          exact hidout (hcl2 a ha id hreq (by simp [hm]))

lemma dfsList_topo (byId : List (String × ModuleDef)) (hacyc : Acyclic byId)
    (fuel : Nat) :
    ∀ (l : List String) (st : DfsState), keysLeft byId st + 1 ≤ fuel →
      TopoInv byId st → (∀ y, ¬ IsGrey byId st y) →
      TopoInv byId (dfsList byId fuel l st) := by
  intro l
  induction l with
  | nil => intro st _ hinv _; exact hinv
  | cons x xs ih =>
    intro st h hinv hng
    show TopoInv byId ((x :: xs).foldl (fun s d => dfs byId fuel d s) st)
    rw [List.foldl_cons]
    have hinvm : TopoInv byId (dfs byId fuel x st) :=
      topo_main byId hacyc fuel x st h hinv
        (fun y hy => absurd hy (hng y))
    have hadm : keysLeft byId (dfs byId fuel x st) + 1 ≤ fuel := by
      have := keysLeft_mono byId (dfs_visited_mono byId fuel x st)
      omega
    have hng' : ∀ y, ¬ IsGrey byId (dfs byId fuel x st) y :=
      fun y hy => hng y (greys_sub (dfs_le byId fuel x st) y hy)
    exact ih (dfs byId fuel x st) hadm hinvm hng'

/-! ### Claim C1: ordering of `includedIds` -/

lemma resolve_topoInv (mods : List ModuleDef) (input : GenerateInput)
    (hacyc : Acyclic (mapById mods)) :
    TopoInv (mapById mods)
      (dfsList (mapById mods) ((mapById mods).length + 1) input.selectedIds
        ⟨[], []⟩) := by
  refine dfsList_topo _ hacyc _ input.selectedIds ⟨[], []⟩
    (by have := keysLeft_start_le (mapById mods); omega)
    ⟨List.nodup_nil, by simp, by simp, List.Pairwise.nil⟩ ?_
  rintro y ⟨_, hy, _⟩
  simp at hy

/-- **C1 (counterexample)** — on the cyclic registry `A requires B,
B requires A`, resolving the selection `[A]` returns `[B, A]`, in which the
dependency `A` of the included module `B` appears strictly *after* `B`: the
claimed topological order fails for registry indexes whose requires relation
has a cycle. -/
theorem claim_C1_counterexample :
    mapGet (mapById [modA, modB]) "B" = some modB ∧
    "A" ∈ modB.requires ∧
    (generateScript [modA, modB] ⟨OS.mac, ["A"], []⟩).includedIds = ["B", "A"] ∧
    "B" ∈ (generateScript [modA, modB] ⟨OS.mac, ["A"], []⟩).includedIds ∧
    "A" ∈ (generateScript [modA, modB] ⟨OS.mac, ["A"], []⟩).includedIds ∧
    ¬((generateScript [modA, modB] ⟨OS.mac, ["A"], []⟩).includedIds.indexOf "A" <
      (generateScript [modA, modB] ⟨OS.mac, ["A"], []⟩).includedIds.indexOf "B") := by
  refine ⟨rfl, by decide, rfl, by decide, by decide, by decide⟩

/-- **C1 (amended)** — topological order of the result on acyclic registry
indexes: whenever the requires relation of the index has no cycle, every
dependency `d` of an included module `m` that is itself included appears
strictly before `m` in `includedIds`. -/
theorem claim_C1_topological_order (mods : List ModuleDef)
    (input : GenerateInput) (hacyc : Acyclic (mapById mods)) (m d : String)
    (mod : ModuleDef) (hm : mapGet (mapById mods) m = some mod)
    (hd : d ∈ mod.requires)
    (hmin : m ∈ (generateScript mods input).includedIds)
    (hdin : d ∈ (generateScript mods input).includedIds) :
    (generateScript mods input).includedIds.indexOf d <
      (generateScript mods input).includedIds.indexOf m := by
  have hinv := resolve_topoInv mods input hacyc
  have hids : (generateScript mods input).includedIds =
      (dfsList (mapById mods) ((mapById mods).length + 1) input.selectedIds
        ⟨[], []⟩).out := by
    rw [generateScript_includedIds]
    exact uniqueKeepOrder_eq_self _ hinv.1
  rw [hids] at hmin hdin ⊢
  obtain ⟨hnd, _, _, hpw⟩ := hinv
  set L := (dfsList (mapById mods) ((mapById mods).length + 1)
    input.selectedIds ⟨[], []⟩).out with hL
  have hreq : reqStep (mapById mods) m d := ⟨mod, hm, hd⟩
  have hmlt : L.indexOf m < L.length := List.indexOf_lt_length.2 hmin
  have hdlt : L.indexOf d < L.length := List.indexOf_lt_length.2 hdin
  rcases Nat.lt_trichotomy (L.indexOf d) (L.indexOf m) with h | h | h
  · exact h
  · exfalso
    have hdm : d = m := by
      have h1 : L.get ⟨L.indexOf d, hdlt⟩ = d := List.indexOf_get hdlt
      have h2 : L.get ⟨L.indexOf m, hmlt⟩ = m := List.indexOf_get hmlt
      rw [← h1, ← h2]
      congr 1
      exact Fin.ext (by simpa using h)
    exact hacyc m (Relation.TransGen.single (hdm ▸ hreq))
  · exfalso
    have := (List.pairwise_iff_get.1 hpw) ⟨L.indexOf m, hmlt⟩
      ⟨L.indexOf d, hdlt⟩ h
    rw [List.indexOf_get hmlt, List.indexOf_get hdlt] at this
    exact this hreq

lemma acyclic_PQ : Acyclic (mapById [modP, modQ]) := by
  have hedge : ∀ a b, reqStep (mapById [modP, modQ]) a b →
      a = "P" ∧ b = "Q" := by
    rintro a b ⟨mod, hmod, hb⟩
    by_cases hQ : "Q" = a
    · subst hQ
      rw [show mapGet (mapById [modP, modQ]) "Q" = some modQ from rfl] at hmod
      cases hmod
      simp [modQ] at hb
    · by_cases hP : "P" = a
      · subst hP
        rw [show mapGet (mapById [modP, modQ]) "P" = some modP from rfl] at hmod
        cases hmod
        refine ⟨rfl, ?_⟩
        simpa [modP] using hb
      · exfalso
        simp [mapGet, mapById, modP, modQ, hQ, hP] at hmod
  have hchain : ∀ a b, Relation.TransGen (reqStep (mapById [modP, modQ])) a b →
      a = "P" ∧ b = "Q" := by
    intro a b h
    induction h with
    | single h => exact hedge _ _ h
    | tail hab hbc ih =>
      have h1 := hedge _ _ hbc
      have h2 := ih
      rw [h2.2] at h1
      exact absurd h1.1 (by decide)
  intro x hx
  have := hchain x x hx
  rw [this.1] at this
  exact absurd this.2 (by decide)

/-- Witness for **C1 (amended)** at the acyclic chain `P requires Q` with
selection `[P]`. -/
theorem claim_C1_witness :
    Acyclic (mapById [modP, modQ]) ∧
    mapGet (mapById [modP, modQ]) "P" = some modP ∧
    "Q" ∈ modP.requires ∧
    "P" ∈ (generateScript [modP, modQ] ⟨OS.mac, ["P"], []⟩).includedIds ∧
    "Q" ∈ (generateScript [modP, modQ] ⟨OS.mac, ["P"], []⟩).includedIds ∧
    (generateScript [modP, modQ] ⟨OS.mac, ["P"], []⟩).includedIds.indexOf "Q" <
      (generateScript [modP, modQ] ⟨OS.mac, ["P"], []⟩).includedIds.indexOf "P" :=
  ⟨acyclic_PQ, rfl, by decide, by decide, by decide,
    claim_C1_topological_order [modP, modQ] ⟨OS.mac, ["P"], []⟩ acyclic_PQ
      "P" "Q" modP rfl (by decide) (by decide) (by decide)⟩

/-- Witness for **C2** at the acyclic chain `P requires Q` with selection
`[P]`: `Q` is transitively required and lands in `includedIds`. -/
theorem claim_C2_witness :
    "P" ∈ (["P"] : List String) ∧
    (mapGet (mapById [modP, modQ]) "Q").isSome ∧
    "Q" ∈ (generateScript [modP, modQ] ⟨OS.mac, ["P"], []⟩).includedIds :=
  ⟨by decide, by decide,
    claim_C2_dependency_closure [modP, modQ] ⟨OS.mac, ["P"], []⟩ "P" "Q"
      (by decide) (Relation.TransGen.single ⟨modP, rfl, by decide⟩) (by decide)⟩

/-! ### Claim C6: resolving the shipped registry -/

/-- **C6** — concrete resolution of the shipped registry: selecting
`dev.git_config` (on either OS, with any variable map) yields exactly the
chain `base.clt, base.homebrew, dev.git, dev.git_config`, in that order. -/
theorem claim_C6_shipped_registry (os : OS) (vars : List (String × String)) :
    (generateScript MODULES ⟨os, ["dev.git_config"], vars⟩).includedIds =
      ["base.clt", "base.homebrew", "dev.git", "dev.git_config"] := rfl

/-! ### Claim C5: unknown references are inert -/

lemma mapGet_removeRef (u : String) (mods : List ModuleDef) (x : String) :
    mapGet (mapById (removeRef u mods)) x =
      (mapGet (mapById mods) x).map (stripReq u) := by
  induction mods with
  | nil => rfl
  | cons m rest ih =>
    have hL : mapById (removeRef u (m :: rest)) =
        ((stripReq u m).id, stripReq u m) :: mapById (removeRef u rest) := rfl
    have hR : mapById (m :: rest) = (m.id, m) :: mapById rest := rfl
    rw [hL, hR, mapGet, mapGet, ih]
    cases hr : mapGet (mapById rest) x with
    | some r => simp
    | none =>
      have hid : (stripReq u m).id = m.id := rfl
      by_cases hk : m.id = x
      · simp [hid, hk]
      · simp [hid, hk]

lemma removeRef_length (u : String) (mods : List ModuleDef) :
    (removeRef u mods).length = mods.length := List.length_map _ _

lemma dfs_bisim (mods : List ModuleDef) (u : String)
    (hu : mapGet (mapById mods) u = none) :
    ∀ fuel,
      (∀ (id : String) (stL stR : DfsState), id ≠ u → BisimRel u stL stR →
        BisimRel u (dfs (mapById mods) fuel id stL)
          (dfs (mapById (removeRef u mods)) fuel id stR)) ∧
      (∀ (stL stR : DfsState), BisimRel u stL stR →
        BisimRel u (dfs (mapById mods) fuel u stL) stR) := by
  intro fuel
  induction fuel with
  | zero => exact ⟨fun _ _ _ _ h => h, fun _ _ h => h⟩
  | succ f ih =>
    constructor
    · intro id stL stR hne hrel
      obtain ⟨ho, huR, hv⟩ := hrel
      rw [dfs_succ, dfs_succ]
      by_cases hvl : id ∈ stL.visited
      · have hvr : id ∈ stR.visited := (hv id hne).1 hvl
        rw [dfsStep_visited hvl, dfsStep_visited hvr]
        exact ⟨ho, huR, hv⟩
      · have hvr : id ∉ stR.visited := fun h => hvl ((hv id hne).2 h)
        have hrel1 : BisimRel u ⟨id :: stL.visited, stL.out⟩
            ⟨id :: stR.visited, stR.out⟩ := by
          refine ⟨ho, ?_, ?_⟩
          · intro hc
            rcases List.mem_cons.1 hc with h | h
            · exact hne h.symm
            · exact huR h
          · intro x hx
            simp only [List.mem_cons]
            rw [hv x hx]
        cases hm : mapGet (mapById mods) id with
        | none =>
          have hmr : mapGet (mapById (removeRef u mods)) id = none := by
            rw [mapGet_removeRef, hm]; rfl
          rw [dfsStep_none hvl hm, dfsStep_none hvr hmr]
          exact hrel1
        | some mod =>
          have hmr : mapGet (mapById (removeRef u mods)) id =
              some (stripReq u mod) := by
            rw [mapGet_removeRef, hm]; rfl
          rw [dfsStep_some hvl hm, dfsStep_some hvr hmr]
          have hlist : ∀ (l : List String) (sL sR : DfsState),
              BisimRel u sL sR →
              BisimRel u (l.foldl (fun s d => dfs (mapById mods) f d s) sL)
                ((l.filter (fun x => x ≠ u)).foldl
                  (fun s d => dfs (mapById (removeRef u mods)) f d s) sR) := by
            intro l
            induction l with
            | nil => intro sL sR h; exact h
            | cons d ds ihl =>
              intro sL sR h
              by_cases hdu : d = u
              · subst d
                rw [List.foldl_cons, List.filter_cons_of_neg (by simp)]
                exact ihl _ _ (ih.2 sL sR h)
              · rw [List.foldl_cons, List.filter_cons_of_pos (by simp [hdu]),
                  List.foldl_cons]
                exact ihl _ _ (ih.1 d sL sR hdu h)
          have hrel2 := hlist mod.requires ⟨id :: stL.visited, stL.out⟩
            ⟨id :: stR.visited, stR.out⟩ hrel1
          have hreq : (stripReq u mod).requires =
              mod.requires.filter (fun x => x ≠ u) := rfl
          rw [hreq]
          obtain ⟨ho2, hu2, hv2⟩ := hrel2
          exact ⟨by rw [ho2], hu2, hv2⟩
    · intro stL stR hrel
      obtain ⟨ho, huR, hv⟩ := hrel
      rw [dfs_succ]
      by_cases hvl : u ∈ stL.visited
      · rw [dfsStep_visited hvl]
        exact ⟨ho, huR, hv⟩
      · rw [dfsStep_none hvl hu]
        refine ⟨ho, huR, ?_⟩
        intro x hx
        simp only [List.mem_cons]
        rw [hv x hx]
        constructor
        · rintro (h | h)
          · exact absurd h hx
          · exact h
        · exact Or.inr

lemma dfsList_bisim (mods : List ModuleDef) (u : String)
    (hu : mapGet (mapById mods) u = none) (fuel : Nat) :
    ∀ (l : List String) (sL sR : DfsState), BisimRel u sL sR →
      BisimRel u (dfsList (mapById mods) fuel l sL)
        (dfsList (mapById (removeRef u mods)) fuel
          (l.filter (fun x => x ≠ u)) sR) := by
  intro l
  induction l with
  | nil => intro sL sR h; exact h
  | cons d ds ihl =>
    intro sL sR h
    show BisimRel u ((d :: ds).foldl (fun s d => dfs (mapById mods) fuel d s) sL) _
    by_cases hdu : d = u
    · subst d
      rw [List.foldl_cons]
      have : (u :: ds).filter (fun x => x ≠ u) = ds.filter (fun x => x ≠ u) :=
        List.filter_cons_of_neg (by simp)
      rw [show dfsList (mapById (removeRef u mods)) fuel
          ((u :: ds).filter (fun x => x ≠ u)) sR =
          dfsList (mapById (removeRef u mods)) fuel
            (ds.filter (fun x => x ≠ u)) sR from by rw [this]]
      exact ihl _ _ ((dfs_bisim mods u hu fuel).2 sL sR h)
    · rw [List.foldl_cons]
      have : (d :: ds).filter (fun x => x ≠ u) =
          d :: ds.filter (fun x => x ≠ u) :=
        List.filter_cons_of_pos (by simp [hdu])
      rw [show dfsList (mapById (removeRef u mods)) fuel
          ((d :: ds).filter (fun x => x ≠ u)) sR =
          dfsList (mapById (removeRef u mods)) fuel
            (d :: ds.filter (fun x => x ≠ u)) sR from by rw [this]]
      show BisimRel u _
        ((d :: ds.filter (fun x => x ≠ u)).foldl
          (fun s d => dfs (mapById (removeRef u mods)) fuel d s) sR)
      rw [List.foldl_cons]
      exact ihl _ _ ((dfs_bisim mods u hu fuel).1 d sL sR hdu h)

lemma moduleBlocks_removeRef (u : String) (mods : List ModuleDef) (os : OS)
    (vars : List (String × String)) (id : String) :
    moduleBlocks (mapById (removeRef u mods)) os vars id =
      moduleBlocks (mapById mods) os vars id := by
  unfold moduleBlocks
  rw [mapGet_removeRef]
  cases hm : mapGet (mapById mods) id with
  | none => rfl
  | some mod => rfl

lemma foldl_append_eq (f : String → List String) :
    ∀ (l : List String) (init : List String),
      l.foldl (fun bs id => bs ++ f id) init = init ++ l.flatMap f := by
  intro l
  induction l with
  | nil => intro init; simp
  | cons x xs ih =>
    intro init
    rw [List.foldl_cons, ih, List.flatMap_cons, List.append_assoc]

lemma generateScript_script (mods : List ModuleDef) (input : GenerateInput) :
    (generateScript mods input).script = String.intercalate "\n"
      (headerBlock input.os ::
        ((generateScript mods input).includedIds.flatMap
          (moduleBlocks (mapById mods) input.os input.vars) ++ [footerBlock])) := by
  show String.intercalate "\n"
      ((uniqueKeepOrder (resolveWithDeps input.selectedIds (mapById mods))).foldl
        (fun bs id => bs ++ moduleBlocks (mapById mods) input.os input.vars id)
        [headerBlock input.os] ++ [footerBlock]) = _
  rw [foldl_append_eq, generateScript_includedIds]
  simp

/-- **C5** — unknown-reference tolerance: an id `u` that is not a key of the
index is never included, and the engine's entire output (script text and
`includedIds`) is unchanged when every reference to `u` (in the selection
and in every requires list) is erased. -/
theorem claim_C5_unknown_reference (mods : List ModuleDef) (os : OS)
    (sel : List String) (vars : List (String × String)) (u : String)
    (hu : mapGet (mapById mods) u = none) :
    generateScript mods ⟨os, sel, vars⟩ =
      generateScript (removeRef u mods) ⟨os, sel.filter (fun x => x ≠ u), vars⟩ ∧
    u ∉ (generateScript mods ⟨os, sel, vars⟩).includedIds := by
  have hlen : (mapById (removeRef u mods)).length = (mapById mods).length := by
    simp [mapById, removeRef]
  have hbis := dfsList_bisim mods u hu ((mapById mods).length + 1) sel
    ⟨[], []⟩ ⟨[], []⟩ ⟨rfl, by simp, fun x _ => Iff.rfl⟩
  have hresolve : resolveWithDeps sel (mapById mods) =
      resolveWithDeps (sel.filter (fun x => x ≠ u))
        (mapById (removeRef u mods)) := by
    unfold resolveWithDeps resolveWithDepsFuel
    rw [hlen]
    exact hbis.1
  have hids : (generateScript mods ⟨os, sel, vars⟩).includedIds =
      (generateScript (removeRef u mods)
        ⟨os, sel.filter (fun x => x ≠ u), vars⟩).includedIds := by
    rw [generateScript_includedIds, generateScript_includedIds]
    show uniqueKeepOrder (resolveWithDeps sel (mapById mods)) = _
    rw [hresolve]
  refine ⟨?_, ?_⟩
  · have hscr : (generateScript mods ⟨os, sel, vars⟩).script =
        (generateScript (removeRef u mods)
          ⟨os, sel.filter (fun x => x ≠ u), vars⟩).script := by
      rw [generateScript_script, generateScript_script, hids]
      show String.intercalate "\n" (headerBlock os :: _) =
        String.intercalate "\n" (headerBlock os :: _)
      congr 2
      congr 1
      refine List.flatMap_congr fun id _ => ?_
      exact (moduleBlocks_removeRef u mods os vars id).symm
    calc generateScript mods ⟨os, sel, vars⟩
        = ⟨(generateScript mods ⟨os, sel, vars⟩).script,
           (generateScript mods ⟨os, sel, vars⟩).includedIds⟩ := rfl
      _ = ⟨(generateScript (removeRef u mods)
              ⟨os, sel.filter (fun x => x ≠ u), vars⟩).script,
           (generateScript (removeRef u mods)
              ⟨os, sel.filter (fun x => x ≠ u), vars⟩).includedIds⟩ := by
          rw [hscr, hids]
      _ = generateScript (removeRef u mods)
            ⟨os, sel.filter (fun x => x ≠ u), vars⟩ := rfl
  · intro hmem
    rw [generateScript_includedIds, mem_uniqueKeepOrder] at hmem
    obtain ⟨t, hto, _, hp⟩ :=
      (dfsList_le (mapById mods) ((mapById mods).length + 1) sel ⟨[], []⟩).2.2
    have hmem' : u ∈ (dfsList (mapById mods) ((mapById mods).length + 1) sel
        ⟨[], []⟩).out := hmem
    rw [hto] at hmem'
    rcases List.mem_append.1 hmem' with h | h
    · simp at h
    · have hk := (hp u h).2.2
      rw [hu] at hk
      simp at hk

/-- Witness for **C5**: the registry `[modG]` (where `G` requires the
non-existent `ghost`) with selection `[G, ghost]`. -/
theorem claim_C5_witness :
    mapGet (mapById [modG]) "ghost" = none ∧
    (generateScript [modG] ⟨OS.mac, ["G", "ghost"], []⟩ =
      generateScript (removeRef "ghost" [modG])
        ⟨OS.mac, (["G", "ghost"] : List String).filter (fun x => x ≠ "ghost"),
          []⟩ ∧
    "ghost" ∉ (generateScript [modG] ⟨OS.mac, ["G", "ghost"], []⟩).includedIds) :=
  ⟨rfl, claim_C5_unknown_reference [modG] OS.mac ["G", "ghost"] [] "ghost" rfl⟩

/-! ### Claims C9 and C10: skip behaviour of the assembler -/

/-- **C9** — unsupported-OS skip: an included module with no fragment for the
requested OS contributes exactly the one-line skip notice (no banner, no
fragment) to the assembled block list, the assembly continues (the script is
the header, every included id's contribution in order, and the footer), and
the module's id still occupies its slot in `includedIds`. -/
theorem claim_C9_unsupported_os_skip (mods : List ModuleDef)
    (input : GenerateInput) (id : String) (mod : ModuleDef)
    (hmod : mapGet (mapById mods) id = some mod)
    (hnone : mod.script.get input.os = none)
    (hin : id ∈ (generateScript mods input).includedIds) :
    moduleBlocks (mapById mods) input.os input.vars id =
      [skipNotice mod input.os] ∧
    (generateScript mods input).script = String.intercalate "\n"
      (headerBlock input.os ::
        ((generateScript mods input).includedIds.flatMap
          (moduleBlocks (mapById mods) input.os input.vars) ++ [footerBlock])) ∧
    id ∈ (generateScript mods input).includedIds := by
  refine ⟨?_, generateScript_script mods input, hin⟩
  simp [moduleBlocks, hmod, hnone]

/-- Witness for **C9**: the module `S` has no Ubuntu fragment; generating for
Ubuntu with selection `[S]` emits its skip notice while keeping `S` in
`includedIds`. -/
theorem claim_C9_witness :
    mapGet (mapById [modS]) "S" = some modS ∧
    modS.script.get OS.ubuntu = none ∧
    "S" ∈ (generateScript [modS] ⟨OS.ubuntu, ["S"], []⟩).includedIds ∧
    moduleBlocks (mapById [modS]) OS.ubuntu [] "S" =
      [skipNotice modS OS.ubuntu] :=
  ⟨rfl, rfl, by decide,
    (claim_C9_unsupported_os_skip [modS] ⟨OS.ubuntu, ["S"], []⟩ "S" modS rfl rfl
      (by decide)).1⟩

/-- **C10** — an empty-string fragment is treated as unsupported: when the
script mapping has an entry for the requested OS whose value is `""` (a
falsy string, which the `if (!s)` branch treats like an absent entry), the
module contributes exactly the same single skip notice as an absent entry
(no banner, no fragment) while its id still appears in `includedIds`. -/
theorem claim_C10_empty_fragment_skipped (mods : List ModuleDef)
    (input : GenerateInput) (id : String) (mod : ModuleDef)
    (hmod : mapGet (mapById mods) id = some mod)
    (hempty : mod.script.get input.os = some "")
    (hin : id ∈ (generateScript mods input).includedIds) :
    moduleBlocks (mapById mods) input.os input.vars id =
      [skipNotice mod input.os] ∧
    (generateScript mods input).script = String.intercalate "\n"
      (headerBlock input.os ::
        ((generateScript mods input).includedIds.flatMap
          (moduleBlocks (mapById mods) input.os input.vars) ++ [footerBlock])) ∧
    id ∈ (generateScript mods input).includedIds := by
  refine ⟨?_, generateScript_script mods input, hin⟩
  simp [moduleBlocks, hmod, hempty]

/-- Witness for **C10**: the module `E` maps macOS to the empty fragment;
generating for macOS with selection `[E]` emits the skip notice while
keeping `E` in `includedIds`. -/
theorem claim_C10_witness :
    mapGet (mapById [modE]) "E" = some modE ∧
    modE.script.get OS.mac = some "" ∧
    "E" ∈ (generateScript [modE] ⟨OS.mac, ["E"], []⟩).includedIds ∧
    moduleBlocks (mapById [modE]) OS.mac [] "E" = [skipNotice modE OS.mac] :=
  ⟨rfl, rfl, by decide,
    (claim_C10_empty_fragment_skipped [modE] ⟨OS.mac, ["E"], []⟩ "E" modE rfl
      rfl (by decide)).1⟩

/-! ### Claim C8: escaping for double-quoted shell literals -/

lemma escPass_append (c : Char) (a b : List Char) :
    escPass c (a ++ b) = escPass c a ++ escPass c b := by
  simp [escPass]

lemma escOne_single (c : Char) :
    escPass btick (escPass '$' (escPass '"' (escPass '\\' [c]))) = escOne c := by
  by_cases h1 : c = '\\'
  · subst h1; rfl
  · by_cases h2 : c = '"'
    · subst h2; rfl
    · by_cases h3 : c = '$'
      · subst h3; rfl
      · by_cases h4 : c = btick
        · subst h4; rfl
        · simp [escPass, escOne, h1, h2, h3, h4]

lemma escape_eq (cs : List Char) :
    escPass btick (escPass '$' (escPass '"' (escPass '\\' cs))) =
      cs.flatMap escOne := by
  induction cs with
  | nil => rfl
  | cons c cs ih =>
    have hsplit : escPass '\\' (c :: cs) =
        escPass '\\' [c] ++ escPass '\\' cs := by
      rw [← escPass_append]
      rfl
    rw [hsplit, escPass_append, escPass_append, escPass_append, ih,
      escOne_single, List.flatMap_cons]

lemma shellDQRead_escOne (cs : List Char) :
    shellDQRead (cs.flatMap escOne) = some cs := by
  induction cs with
  | nil => rfl
  | cons c cs ih =>
    rw [List.flatMap_cons]
    by_cases h1 : c = '\\' ∨ c = '"' ∨ c = '$' ∨ c = btick
    · have he : escOne c = ['\\', c] := by simp [escOne, h1]
      rw [he]
      show shellDQRead ('\\' :: c :: cs.flatMap escOne) = _
      rw [shellDQRead.eq_def]
      simp [h1, ih]
    · have he : escOne c = [c] := by simp [escOne, h1]
      rw [he]
      show shellDQRead (c :: cs.flatMap escOne) = _
      push_neg at h1
      obtain ⟨n1, n2, n3, n4⟩ := h1
      rw [shellDQRead.eq_def]
      simp [n1, n2, n3, n4, ih]

/-- **C8** — escaping correctness and order: the four ordered global
replacements of `escapeForDoubleQuotes` amount to a single pass that
prefixes exactly each backslash, double quote, dollar and backtick with one
backslash (so no escape introduced by a later pass is re-escaped), and a
value escaped this way and placed inside a double-quoted shell literal is
read back by the shell as exactly the original characters, with no
metacharacter effect. -/
theorem claim_C8_escaping (v : String) :
    escapeForDoubleQuotes v = String.mk (v.data.flatMap escOne) ∧
    shellDQRead (escapeForDoubleQuotes v).data = some v.data := by
  have h := escape_eq v.data
  constructor
  · unfold escapeForDoubleQuotes
    rw [h]
  · have hdata : (escapeForDoubleQuotes v).data = v.data.flatMap escOne := by
      unfold escapeForDoubleQuotes
      rw [h]
    rw [hdata, shellDQRead_escOne]

/-! ### Claim C7: variable substitution -/

lemma applyVarsAux_cons2 (vars : List (String × String)) (f : Nat)
    (c c2 : Char) (rest2 : List Char) :
    applyVarsAux vars (f + 1) (c :: c2 :: rest2) =
      if c = lbrace ∧ c2 = lbrace then
        match rest2.span isIdChar with
        | (run, c3 :: c4 :: rest') =>
          if run ≠ [] ∧ c3 = rbrace ∧ c4 = rbrace then
            (escapeForDoubleQuotes (varGet vars (String.mk run))).data ++
              applyVarsAux vars f rest'
          else c :: applyVarsAux vars f (c2 :: rest2)
        | _ => c :: applyVarsAux vars f (c2 :: rest2)
      else c :: applyVarsAux vars f (c2 :: rest2) := rfl

lemma wfTemplateGo_cons2 (f : Nat) (c c2 : Char) (rest2 : List Char) :
    wfTemplateGo (f + 1) (c :: c2 :: rest2) =
      if c = lbrace ∧ c2 = lbrace then
        match rest2.span isIdChar with
        | (run, c3 :: c4 :: rest') =>
          if run ≠ [] ∧ c3 = rbrace ∧ c4 = rbrace then wfTemplateGo f rest'
          else false
        | _ => false
      else wfTemplateGo f (c2 :: rest2) := rfl

lemma containsTokenGo_cons2 (f : Nat) (c c2 : Char) (rest2 : List Char) :
    containsTokenGo (f + 1) (c :: c2 :: rest2) =
      if c = lbrace ∧ c2 = lbrace then
        match rest2.span isIdChar with
        | (run, c3 :: c4 :: _) =>
          if run ≠ [] ∧ c3 = rbrace ∧ c4 = rbrace then true
          else containsTokenGo f (c2 :: rest2)
        | _ => containsTokenGo f (c2 :: rest2)
      else containsTokenGo f (c2 :: rest2) := rfl

lemma hdo_cons2 (c c2 : Char) (rest : List Char) :
    hasDoubleOpen (c :: c2 :: rest) =
      ((c = lbrace && c2 = lbrace) || hasDoubleOpen (c2 :: rest)) := rfl

lemma varGet_cases (vars : List (String × String)) (k : String) :
    varGet vars k = "" ∨ ∃ p ∈ vars, varGet vars k = p.2 := by
  induction vars with
  | nil => exact Or.inl rfl
  | cons p rest ih =>
    rw [varGet]
    by_cases h : p.1 = k
    · rw [if_pos h]
      exact Or.inr ⟨p, List.mem_cons_self _ _, rfl⟩
    · rw [if_neg h]
      rcases ih with h' | ⟨q, hq, hq'⟩
      · exact Or.inl h'
      · exact Or.inr ⟨q, List.mem_cons_of_mem _ hq, hq'⟩

lemma escape_no_lbrace (v : String) (hv : lbrace ∉ v.data) :
    lbrace ∉ (escapeForDoubleQuotes v).data := by
  have hdata : (escapeForDoubleQuotes v).data = v.data.flatMap escOne := by
    unfold escapeForDoubleQuotes
    rw [escape_eq]
  rw [hdata]
  intro hc
  rcases List.mem_flatMap.1 hc with ⟨c, hcv, hce⟩
  unfold escOne at hce
  by_cases h : c = '\\' ∨ c = '"' ∨ c = '$' ∨ c = btick
  · rw [if_pos h] at hce
    rcases List.mem_cons.1 hce with h' | h'
    · exact absurd h' (by decide)
    · rw [List.mem_singleton] at h'
      exact hv (h' ▸ hcv)
  · rw [if_neg h] at hce
    rw [List.mem_singleton] at hce
    exact hv (hce ▸ hcv)

lemma contains_of_hdo_false :
    ∀ (fuel : Nat) (cs : List Char), hasDoubleOpen cs = false →
      containsTokenGo fuel cs = false := by
  intro fuel
  induction fuel with
  | zero => intro cs _; rfl
  | succ f ih =>
    intro cs h
    cases cs with
    | nil => rfl
    | cons c cs' =>
      cases cs' with
      | nil => rfl
      | cons c2 rest2 =>
        rw [hdo_cons2] at h
        rw [Bool.or_eq_false_iff] at h
        have hcond : ¬(c = lbrace ∧ c2 = lbrace) := by
          rintro ⟨hc, hc2⟩
          have := h.1
          rw [hc, hc2] at this
          simp at this
        rw [containsTokenGo_cons2, if_neg hcond]
        exact ih (c2 :: rest2) h.2

lemma applyVarsAux_head (vars : List (String × String)) (f : Nat) (c2 : Char)
    (rest2 : List Char) (hc2 : c2 ≠ lbrace) :
    ∃ tail, applyVarsAux vars f (c2 :: rest2) = c2 :: tail := by
  cases f with
  | zero => exact ⟨rest2, rfl⟩
  | succ f' =>
    cases rest2 with
    | nil => exact ⟨[], rfl⟩
    | cons c3 rest3 =>
      rw [applyVarsAux_cons2, if_neg (fun hc => hc2 hc.1)]
      exact ⟨_, rfl⟩

lemma hasDoubleOpen_append_free (B : List Char) :
    ∀ A : List Char, (∀ a ∈ A, a ≠ lbrace) →
      hasDoubleOpen (A ++ B) = hasDoubleOpen B := by
  intro A
  induction A with
  | nil => intro _; rfl
  | cons a A ih =>
    intro hA
    have ha : a ≠ lbrace := hA a (List.mem_cons_self _ _)
    have hA' : ∀ x ∈ A, x ≠ lbrace :=
      fun x hx => hA x (List.mem_cons_of_mem _ hx)
    show hasDoubleOpen (a :: (A ++ B)) = _
    cases hAB : A ++ B with
    | nil =>
      have hB : B = [] := by
        cases A with
        | nil => simpa using hAB
        | cons x xs => simp at hAB
      rw [hB]
      rfl
    | cons x rest =>
      rw [hdo_cons2]
      have hfalse : (a = lbrace && x = lbrace) = false := by
        simp [ha]
      rw [hfalse, Bool.false_or, ← hAB, ih hA']

lemma span_tail_le (p : Char → Bool) (l : List Char) :
    (l.span p).2.length ≤ l.length := by
  have hs : (l.dropWhile p).length ≤ l.length :=
    (List.dropWhile_sublist p).length_le
  simpa [List.span_eq_take_drop] using hs

lemma applyVarsAux_no_dopen (vars : List (String × String))
    (hvals : ∀ p ∈ vars, lbrace ∉ p.2.data) :
    ∀ (fuel : Nat) (cs : List Char), cs.length ≤ fuel →
      wfTemplateGo fuel cs = true →
      hasDoubleOpen (applyVarsAux vars fuel cs) = false := by
  have hesc : ∀ k, lbrace ∉ (escapeForDoubleQuotes (varGet vars k)).data := by
    intro k
    refine escape_no_lbrace _ ?_
    rcases varGet_cases vars k with h | ⟨p, hp, h⟩
    · rw [h]; simp
    · rw [h]; exact hvals p hp
  intro fuel
  induction fuel with
  | zero =>
    intro cs hlen _
    have : cs = [] := List.length_eq_zero.1 (Nat.le_zero.1 hlen)
    subst this
    rfl
  | succ f ih =>
    intro cs hlen hwf
    cases cs with
    | nil => rfl
    | cons c cs' =>
      cases cs' with
      | nil => rfl
      | cons c2 rest2 =>
        by_cases hcc : c = lbrace ∧ c2 = lbrace
        · rw [wfTemplateGo_cons2, if_pos hcc] at hwf
          rw [applyVarsAux_cons2, if_pos hcc]
          rcases hsp : rest2.span isIdChar with ⟨run, tail⟩
          rw [hsp] at hwf
          have htail : tail.length ≤ rest2.length := by
            have := span_tail_le isIdChar rest2
            rw [hsp] at this
            exact this
          cases tail with
          | nil => exact Bool.noConfusion hwf
          | cons c3 tail' =>
            cases tail' with
            | nil => exact Bool.noConfusion hwf
            | cons c4 rest' =>
              have hredwf : (match (run, c3 :: c4 :: rest') with
                  | (run, c3 :: c4 :: rest') =>
                    if run ≠ [] ∧ c3 = rbrace ∧ c4 = rbrace then
                      wfTemplateGo f rest'
                    else false
                  | _ => false) =
                  if run ≠ [] ∧ c3 = rbrace ∧ c4 = rbrace then
                    wfTemplateGo f rest'
                  else false := rfl
              rw [hredwf] at hwf
              have hredgo : (match (run, c3 :: c4 :: rest') with
                  | (run, c3 :: c4 :: rest') =>
                    if run ≠ [] ∧ c3 = rbrace ∧ c4 = rbrace then
                      (escapeForDoubleQuotes
                        (varGet vars (String.mk run))).data ++
                        applyVarsAux vars f rest'
                    else c :: applyVarsAux vars f (c2 :: rest2)
                  | _ => c :: applyVarsAux vars f (c2 :: rest2)) =
                  if run ≠ [] ∧ c3 = rbrace ∧ c4 = rbrace then
                    (escapeForDoubleQuotes (varGet vars (String.mk run))).data ++
                      applyVarsAux vars f rest'
                  else c :: applyVarsAux vars f (c2 :: rest2) := rfl
              rw [hredgo]
              by_cases hrun : run ≠ [] ∧ c3 = rbrace ∧ c4 = rbrace
              · rw [if_pos hrun] at hwf
                rw [if_pos hrun]
                have hlen' : rest'.length ≤ f := by
                  simp at htail hlen
                  omega
                rw [hasDoubleOpen_append_free _ _
                  (fun a ha hc => hesc (String.mk run) (hc ▸ ha))]
                exact ih rest' hlen' hwf
              · rw [if_neg hrun] at hwf
                exact Bool.noConfusion hwf
        · rw [wfTemplateGo_cons2, if_neg hcc] at hwf
          rw [applyVarsAux_cons2, if_neg hcc]
          have htl : hasDoubleOpen (applyVarsAux vars f (c2 :: rest2)) = false := by
            refine ih (c2 :: rest2) ?_ hwf
            simp at hlen ⊢
            omega
          by_cases hc : c = lbrace
          · have hc2 : c2 ≠ lbrace := fun h2 => hcc ⟨hc, h2⟩
            obtain ⟨tl, htl'⟩ := applyVarsAux_head vars f c2 rest2 hc2
            rw [htl']
            rw [htl'] at htl
            rw [hdo_cons2]
            have : (c = lbrace && c2 = lbrace) = false := by simp [hc2]
            rw [this, Bool.false_or]
            exact htl
          · cases hout : applyVarsAux vars f (c2 :: rest2) with
            | nil => rfl
            | cons x rest =>
              rw [hout] at htl
              rw [hdo_cons2]
              have : (c = lbrace && x = lbrace) = false := by simp [hc]
              rw [this, Bool.false_or]
              exact htl

/-- **C7 (counterexample)** — substitution totality fails as universally
stated: a replacement value may itself contain a placeholder, which the
single non-rescanning pass leaves unresolved in the output (the template
`\x7b\x7ba\x7d\x7d` with `a` bound to `\x7b\x7bb\x7d\x7d` produces exactly
`\x7b\x7bb\x7d\x7d`, which still contains an unresolved token). -/
theorem claim_C7_counterexample :
    applyVars "\x7b\x7ba\x7d\x7d" [("a", "\x7b\x7bb\x7d\x7d")] =
      "\x7b\x7bb\x7d\x7d" ∧
    containsToken
      (applyVars "\x7b\x7ba\x7d\x7d" [("a", "\x7b\x7bb\x7d\x7d")]).data =
      true :=
  ⟨rfl, rfl⟩

/-- **C7 (amended)** — substitution totality: `applyVars` is a total
function replacing each `\x7b\x7bidentifier\x7d\x7d` token by the escaped
variable value (empty for a missing key); provided every double-open-brace
in the template begins a complete token and no variable value contains an
opening brace, the output contains no unresolved `\x7b\x7b...\x7d\x7d`
token (indeed no two consecutive opening braces at all).  A substituted
value may otherwise reintroduce a token, as the counterexample shows. -/
theorem claim_C7_substitution_totality (tpl : String)
    (vars : List (String × String)) (hwf : wfTemplate tpl.data = true)
    (hvals : ∀ p ∈ vars, lbrace ∉ p.2.data) :
    hasDoubleOpen (applyVars tpl vars).data = false ∧
    containsToken (applyVars tpl vars).data = false := by
  have h1 : hasDoubleOpen (applyVarsAux vars tpl.data.length tpl.data) = false :=
    applyVarsAux_no_dopen vars hvals tpl.data.length tpl.data (le_refl _) hwf
  refine ⟨h1, ?_⟩
  exact contains_of_hdo_false _ _ h1

/-- Witness for **C7 (amended)**: a well-formed concrete template and a
brace-free variable binding. -/
theorem claim_C7_witness :
    wfTemplate ("git config --global user.name \"\x7b\x7bgit_name\x7d\x7d\"" :
        String).data = true ∧
    (∀ p ∈ [("git_name", "Alice")], lbrace ∉ (p : String × String).2.data) ∧
    hasDoubleOpen (applyVars "git config --global user.name \"\x7b\x7bgit_name\x7d\x7d\""
      [("git_name", "Alice")]).data = false ∧
    containsToken (applyVars "git config --global user.name \"\x7b\x7bgit_name\x7d\x7d\""
      [("git_name", "Alice")]).data = false := by
  refine ⟨by decide, by decide, ?_⟩
  have := claim_C7_substitution_totality
    "git config --global user.name \"\x7b\x7bgit_name\x7d\x7d\""
    [("git_name", "Alice")] (by decide) (by decide)
  exact this

end InstallBuilder
